import Mathlib

/-!
Shallow embedding of the BVH (bounding volume hierarchy) module of
`quick_renderer` (`src/bvh.rs`), a port of Blender's `BLI_kdopbvh`.

Modelling conventions:
* The scalar type `T` of the source (a real field; callers use `f32`/`f64`)
  is modelled as `ℚ` with exact arithmetic.  The constants `T::max_value()`,
  `T::min_value()` and `T::default_epsilon()` are modelled by the exact
  values of `f32::MAX`, `f32::MIN` and `f32::EPSILON`.
* The generational arena `Arena<BVHNode>` never has elements removed, so a
  handle (`generational_arena::Index`) is in bijection with its slot
  position; `BVHNodeIndex` is modelled as `Option Nat` where `none` is the
  sentinel `BVHNodeIndex::unknown()` (which compares unequal to every live
  handle and for which every arena lookup fails).  `get_unknown_*(i)`
  lookups (by insertion position) are lookups at list position `i`.
* Every fallible operation (slice/Vec indexing, `unwrap`, `assert!`) is
  modelled in the `Option` monad: `none` is a panic.  Loops whose bound is
  not structural carry an explicit `fuel : Nat` argument; exhausting the
  fuel also yields `none`.
* Rust `usize` subtraction is modelled by `Nat` subtraction (or via `Int`
  where the source computes in `isize`); comments note the places where the
  source could underflow.
-/

/-- Exact value of `f32::MAX`, modelling `T::max_value()`. -/
def t_max_value : ℚ := (2 ^ 24 - 1) * 2 ^ 104

/-- Exact value of `f32::MIN`, modelling `T::min_value()`. -/
def t_min_value : ℚ := -t_max_value

/-- Exact value of `f32::EPSILON`, modelling `T::default_epsilon()`. -/
def default_epsilon : ℚ := 1 / 2 ^ 23

/-- A 3-vector of scalars, modelling `glm::TVec3<T>`. -/
structure V3 where
  x : ℚ
  y : ℚ
  z : ℚ
deriving DecidableEq, Repr

instance : Add V3 := ⟨fun a b => ⟨a.x + b.x, a.y + b.y, a.z + b.z⟩⟩

instance : Sub V3 := ⟨fun a b => ⟨a.x - b.x, a.y - b.y, a.z - b.z⟩⟩

/-- Scalar multiplication `v * s` as used in `co + dir * dist`. -/
def V3.scale (v : V3) (s : ℚ) : V3 := ⟨v.x * s, v.y * s, v.z * s⟩

/-- `glm::dot`. -/
def V3.dot (a b : V3) : ℚ := a.x * b.x + a.y * b.y + a.z * b.z

/-- `glm::distance2`, the squared euclidean distance. -/
def V3.distance2 (a b : V3) : ℚ := V3.dot (a - b) (a - b)

/-- The 13 k-DOP axis directions of `bvhtree_kdop_axes` (source order).
The source array has exactly 13 entries and is only ever indexed below 13;
indices `≥ 13` return a junk value here. -/
def bvhtree_kdop_axes : Nat → V3
  | 0 => ⟨1, 0, 0⟩
  | 1 => ⟨0, 1, 0⟩
  | 2 => ⟨0, 0, 1⟩
  | 3 => ⟨1, 1, 1⟩
  | 4 => ⟨1, -1, 1⟩
  | 5 => ⟨1, 1, -1⟩
  | 6 => ⟨1, -1, -1⟩
  | 7 => ⟨1, 1, 0⟩
  | 8 => ⟨1, 0, 1⟩
  | 9 => ⟨0, 1, 1⟩
  | 10 => ⟨1, -1, 0⟩
  | 11 => ⟨1, 0, -1⟩
  | 12 => ⟨0, 1, -1⟩
  | _ => ⟨0, 0, 0⟩

/-- Checked write `l[i] = a` of a Rust `Vec`: panics (`none`) out of bounds. -/
def lset {α : Type _} (l : List α) (i : Nat) (a : α) : Option (List α) :=
  if i < l.length then some (l.set i a) else none

/-- The half-open index range `[s, e)` iterated by `for i in s..e`. -/
def iter_range (s e : Nat) : List Nat := List.range' s (e - s)

/-- A node handle: `none` models `BVHNodeIndex::unknown()`. -/
abbrev NodeIndex := Option Nat

/-- `BVHNode<T, E>`. -/
structure BVHNode (E : Type) where
  children : List NodeIndex
  parent : Option NodeIndex
  bv : List ℚ
  elem_index : Option E
  totnode : Nat
  main_axis : Nat
deriving DecidableEq, Repr

/-- `BVHNode::new()`. -/
def BVHNode.new (E : Type) : BVHNode E :=
  { children := [], parent := none, bv := [], elem_index := none,
    totnode := 0, main_axis := 0 }

/-- `BVHNode::min_max_init`: reset the `(min, max)` pair of every active
axis to `(T::max_value(), T::min_value())`.  Writes are checked: the source
panics when `2 * axis_iter + 1` falls outside `bv`. -/
def min_max_init (start_axis stop_axis : Nat) (bv : List ℚ) :
    Option (List ℚ) :=
  (iter_range start_axis stop_axis).foldlM
    (fun bv i => do
      let bv ← lset bv (2 * i) t_max_value
      lset bv (2 * i + 1) t_min_value)
    bv

/-- `BVHNode::create_kdop_hull`: fold every point's projection on every
active axis into the `(min, max)` pairs, after re-initialising them unless
`moving`.  The `assert_eq!(bv.len(), stop_axis * 2)` of the source follows
the `min_max_init` call, as in the source. -/
def create_kdop_hull (start_axis stop_axis : Nat) (co_many : List V3)
    (moving : Bool) (bv : List ℚ) : Option (List ℚ) := do
  let bv ← if moving then pure bv else min_max_init start_axis stop_axis bv
  if bv.length = stop_axis * 2 then
    co_many.foldlM
      (fun bv co =>
        (iter_range start_axis stop_axis).foldlM
          (fun bv i => do
            let new_min_max := co.dot (bvhtree_kdop_axes i)
            let mn ← bv[2 * i]?
            let bv ← if new_min_max < mn then lset bv (2 * i) new_min_max
                     else pure bv
            let mx ← bv[2 * i + 1]?
            if new_min_max > mx then lset bv (2 * i + 1) new_min_max
            else pure bv)
          bv)
      bv
  else none

/-- `BVHNode::overlap_test`: separating-interval rejection on every active
axis, with the source's left-to-right evaluation (and panic) order. -/
def overlap_test (E : Type) (n1 n2 : BVHNode E) (start_axis stop_axis : Nat) :
    Option Bool :=
  go (iter_range start_axis stop_axis)
where
  go : List Nat → Option Bool
    | [] => some true
    | i :: rest => do
      let a ← n1.bv[2 * i]?
      let b ← n2.bv[2 * i + 1]?
      if a > b then some false
      else do
        let c ← n2.bv[2 * i]?
        let d ← n1.bv[2 * i + 1]?
        if c > d then some false else go rest

/-- `BVHError`. -/
inductive BVHError where
  | IndexOutOfRange
  | DifferentNumPoints
deriving DecidableEq, Repr

/-- `BVHTree<T, E>`.  `node_array` is the arena (slot `i` holds the node
whose handle is `some i`), `nodes` the flat handle list. -/
structure BVHTree (E : Type) where
  nodes : List NodeIndex
  node_array : List (BVHNode E)
  epsilon : ℚ
  totleaf : Nat
  totbranch : Nat
  start_axis : Nat
  stop_axis : Nat
  axis : Nat
  tree_type : Nat
deriving DecidableEq, Repr

/-- Arena lookup `node_array.get(index)`: fails on the unknown sentinel and
on out-of-range slots, exactly like `generational_arena::Arena::get`. -/
def get_node {E : Type} (arr : List (BVHNode E)) (h : NodeIndex) :
    Option (BVHNode E) := do
  let i ← h
  arr[i]?

/-- Checked arena write at slot `i`. -/
def set_node {E : Type} (arr : List (BVHNode E)) (i : Nat) (nd : BVHNode E) :
    Option (List (BVHNode E)) :=
  lset arr i nd

/-- `implicit_needed_branches`.  With `Nat` subtraction
`leafs + tree_type - 3` truncates at zero where the source's `usize`
subtraction would underflow (only for `leafs = 0, tree_type = 2`, a case no
claim exercises). -/
def implicit_needed_branches (tree_type leafs : Nat) : Nat :=
  max 1 (leafs + tree_type - 3) / (tree_type - 1)

/-- `get_largest_axis`: the bv index (`1`, `3` or `5`) of the max bound of
the cardinal axis of largest extent. -/
def get_largest_axis (bv : List ℚ) : Option Nat := do
  let b0 ← bv[0]?
  let b1 ← bv[1]?
  let b2 ← bv[2]?
  let b3 ← bv[3]?
  let b4 ← bv[4]?
  let b5 ← bv[5]?
  let middle_point_x := b1 - b0
  let middle_point_y := b3 - b2
  let middle_point_z := b5 - b4
  if middle_point_x > middle_point_y then
    if middle_point_x > middle_point_z then some 1 else some 5
  else if middle_point_y > middle_point_z then some 3
  else some 5

/-- `BVHTree::new`: validates `tree_type ∈ [2, 32]`, clamps `epsilon`,
maps `axis` to the active `(start_axis, stop_axis)` range, and pre-allocates
`max_size + implicit_needed_branches + tree_type` blank nodes. -/
def BVHTree.new (E : Type) (max_size : Nat) (epsilon : ℚ)
    (tree_type axis : Nat) : Option (BVHTree E) :=
  if 2 ≤ tree_type ∧ tree_type ≤ 32 then
    let epsilon := max epsilon default_epsilon
    let axes : Option (Nat × Nat) :=
      if axis = 26 then some (0, 13)
      else if axis = 18 then some (7, 13)
      else if axis = 14 then some (0, 7)
      else if axis = 8 then some (0, 4)
      else if axis = 6 then some (0, 3)
      else none
    match axes with
    | none => none
    | some (start_axis, stop_axis) =>
      let numnodes := max_size + implicit_needed_branches tree_type max_size
        + tree_type
      let blank : BVHNode E :=
        { BVHNode.new E with
          bv := List.replicate axis 0,
          children := List.replicate tree_type none }
      some
        { nodes := List.replicate numnodes none
          node_array := List.replicate numnodes blank
          epsilon := epsilon
          totleaf := 0
          totbranch := 0
          start_axis := start_axis
          stop_axis := stop_axis
          axis := axis
          tree_type := tree_type }
  else none

/-- `BVHTree::insert`: asserts `totbranch == 0`, records the handle of slot
`totleaf`, computes the epsilon-inflated k-DOP hull of `co_many` in that
slot and stamps it with `elem_index`. -/
def BVHTree.insert {E : Type} (t : BVHTree E) (index : E)
    (co_many : List V3) : Option (BVHTree E) := do
  if t.totbranch = 0 then
    -- self.nodes[self.totleaf] = handle of arena slot `totleaf`
    -- (get_unknown_index unwraps, so the slot must exist)
    let _ ← t.node_array[t.totleaf]?
    let nodes ← lset t.nodes t.totleaf (some t.totleaf)
    let node ← t.node_array[t.totleaf]?
    let totleaf := t.totleaf + 1
    let bv ← create_kdop_hull t.start_axis t.stop_axis co_many false node.bv
    -- inflate bv by epsilon
    let bv ← (iter_range t.start_axis t.stop_axis).foldlM
      (fun bv i => do
        let mn ← bv[2 * i]?
        let bv ← lset bv (2 * i) (mn - t.epsilon)
        let mx ← bv[2 * i + 1]?
        lset bv (2 * i + 1) (mx + t.epsilon))
      bv
    let node := { node with bv := bv, elem_index := some index }
    let node_array ← set_node t.node_array t.totleaf node
    some { t with nodes := nodes, node_array := node_array, totleaf := totleaf }
  else none

/-- `BVHBuildHelper`. -/
structure BVHBuildHelper where
  totleafs : Nat
  leafs_per_child : List Nat
  branches_on_level : List Nat
  remain_leafs : Nat
deriving Repr

/-- The first loop of `build_implicit_helper`: smallest `tree_type ^ n ≥
totleafs`, computed as `while leafs_per_child[0] < totleafs { *= tree_type }`.
The fuel only runs out when `tree_type < 2` (where the source loops
forever). -/
def smallest_power_loop (tree_type totleafs : Nat) : Nat → Nat → Option Nat
  | 0, _ => none
  | fuel + 1, acc =>
    if acc < totleafs then smallest_power_loop tree_type totleafs fuel
      (acc * tree_type)
    else some acc

/-- The second loop of `build_implicit_helper`: fill `branches_on_level` and
`leafs_per_child` while `depth < 32 && leafs_per_child[depth - 1] != 0`.
Called with fuel `31` and depth `1`; the fuel reaches `0` exactly when
`depth` reaches `32`, so it never cuts the loop short. -/
def build_levels (tree_type : Nat) :
    Nat → Nat → List Nat → List Nat → Option (List Nat × List Nat)
  | 0, _, lpc, bol => some (lpc, bol)
  | fuel + 1, depth, lpc, bol =>
    if depth < 32 then do
      let prev ← lpc[depth - 1]?
      if prev ≠ 0 then do
        let bprev ← bol[depth - 1]?
        let bol ← lset bol depth (bprev * tree_type)
        let lpc ← lset lpc depth (prev / tree_type)
        build_levels tree_type fuel (depth + 1) lpc bol
      else some (lpc, bol)
    else some (lpc, bol)

/-- `BVHTree::build_implicit_helper`.  `remain = totleafs -
leafs_per_child[1]` is a `usize` subtraction; in every reachable call
(`totleafs ≥ 2`, `tree_type ≥ 2`) `leafs_per_child[1] < totleafs`, so `Nat`
truncation agrees with the source. -/
def BVHTree.build_implicit_helper {E : Type} (t : BVHTree E) :
    Option BVHBuildHelper := do
  let totleafs := t.totleaf
  let tree_type := t.tree_type
  let lpc0 ← smallest_power_loop tree_type totleafs (totleafs + 1) 1
  let lpc ← lset (List.replicate 32 0) 0 lpc0
  let bol ← lset (List.replicate 32 0) 0 1
  let (lpc, bol) ← build_levels tree_type 31 1 lpc bol
  let lpc1 ← lpc[1]?
  let remain := totleafs - lpc1
  let nnodes := (remain + tree_type - 2) / (tree_type - 1)
  let remain_leafs := remain + nnodes
  some ⟨totleafs, lpc, bol, remain_leafs⟩

/-- `BVHBuildHelper::implicit_leafs_index`.  The two inner subtractions are
`usize`; `Nat` truncation agrees in every reachable call. -/
def BVHBuildHelper.implicit_leafs_index (h : BVHBuildHelper)
    (depth child_index : Nat) : Option Nat := do
  let lpcdm1 ← h.leafs_per_child[depth - 1]?
  let min_leaf_index := child_index * lpcdm1
  if min_leaf_index ≤ h.remain_leafs then some min_leaf_index
  else do
    let lpcd ← h.leafs_per_child[depth]?
    if lpcd ≠ 0 then do
      let bol ← h.branches_on_level[depth - 1]?
      some (h.totleafs - (bol - child_index) * lpcd)
    else some h.remain_leafs

/-- `BVHTree::refit_kdop_hull`: reset the node's bv and fold in the bvs of
`nodes[jlo..jhi)`.  `get2_mut` panics when the two handles coincide, which
the `h = node_index` check mirrors. -/
def BVHTree.refit_kdop_hull {E : Type} (t : BVHTree E) (node_index : NodeIndex)
    (jlo jhi : Nat) : Option (BVHTree E) := do
  let pi ← node_index
  let nd ← t.node_array[pi]?
  let bv0 ← min_max_init t.start_axis t.stop_axis nd.bv
  let bv ← (iter_range jlo jhi).foldlM
    (fun bv j => do
      let h ← t.nodes[j]?
      if h = node_index then none
      else do
        let child ← get_node t.node_array h
        (iter_range t.start_axis t.stop_axis).foldlM
          (fun bv i => do
            let new_min ← child.bv[2 * i]?
            let cur_min ← bv[2 * i]?
            let bv ← if new_min < cur_min then lset bv (2 * i) new_min
                     else pure bv
            let new_max ← child.bv[2 * i + 1]?
            let cur_max ← bv[2 * i + 1]?
            if new_max > cur_max then lset bv (2 * i + 1) new_max
            else pure bv)
          bv)
    bv0
  let arr ← set_node t.node_array pi { nd with bv := bv }
  some { t with node_array := arr }

/-- Read `node_array.get(h).unwrap().bv[axis]`. -/
def bv_axis {E : Type} (arr : List (BVHNode E)) (h : NodeIndex) (axis : Nat) :
    Option ℚ := do
  let nd ← get_node arr h
  nd.bv[axis]?

/-- The inner `while` of `bvh_insertion_sort`: shift greater elements right,
walking `j` down towards `lo`.  `j - 1` at `j = 0` is the source's `usize`
underflow panic. -/
def ins_sort_shift {E : Type} (arr : List (BVHNode E)) (axis lo : Nat)
    (node_t : BVHNode E) : Nat → List NodeIndex → Option (List NodeIndex × Nat)
  | 0, nodes => if 0 = lo then some (nodes, 0) else none
  | j + 1, nodes =>
    if j + 1 = lo then some (nodes, j + 1)
    else do
      let h ← nodes[j]?
      let vprev ← bv_axis arr h axis
      let vt ← node_t.bv[axis]?
      if vt < vprev then do
        let nodes ← lset nodes (j + 1) h
        ins_sort_shift arr axis lo node_t j nodes
      else some (nodes, j + 1)

/-- `BVHTree::bvh_insertion_sort` on `nodes[lo..hi)`, keyed on `bv[axis]`. -/
def BVHTree.bvh_insertion_sort {E : Type} (t : BVHTree E) (lo hi axis : Nat) :
    Option (BVHTree E) := do
  let nodes ← (iter_range lo hi).foldlM
    (fun nodes i => do
      let node_t_index ← nodes[i]?
      let node_t ← get_node t.node_array node_t_index
      let (nodes, j) ← ins_sort_shift t.node_array axis lo node_t i nodes
      lset nodes j node_t_index)
    t.nodes
  some { t with nodes := nodes }

/-- The forward scan of `bvh_partition` (`while bv[i] < pivot { i += 1 }`).
The internal fuel `nodes.length + 1` is enough for the scan to either stop
or run off the end of `nodes` (the source's panic). -/
def scan_up {E : Type} (arr : List (BVHNode E)) (nodes : List NodeIndex)
    (val_x : ℚ) (axis : Nat) : Nat → Nat → Option Nat
  | 0, _ => none
  | fuel + 1, i => do
    let h ← nodes[i]?
    let v ← bv_axis arr h axis
    if v < val_x then scan_up arr nodes val_x axis fuel (i + 1)
    else some i

/-- The backward scan of `bvh_partition` (`j -= 1; while pivot < bv[j]
{ j -= 1 }`); decrementing past `0` is the source's `usize` underflow. -/
def scan_down {E : Type} (arr : List (BVHNode E)) (nodes : List NodeIndex)
    (val_x : ℚ) (axis : Nat) : Nat → Nat → Option Nat
  | 0, _ => none
  | fuel + 1, j =>
    match j with
    | 0 => none
    | j' + 1 => do
      let h ← nodes[j']?
      let v ← bv_axis arr h axis
      if val_x < v then scan_down arr nodes val_x axis fuel j'
      else some j'

/-- The swap loop of `bvh_partition`.  `i` strictly increases every
iteration and a scan past the end of `nodes` fails, so internal fuel
`nodes.length + 1` never cuts a run short that the source would finish. -/
def partition_loop {E : Type} (arr : List (BVHNode E)) (val_x : ℚ)
    (axis : Nat) : Nat → Nat → Nat → List NodeIndex →
    Option (List NodeIndex × Nat)
  | 0, _, _, _ => none
  | fuel + 1, i, j, nodes => do
    let i ← scan_up arr nodes val_x axis (nodes.length + 1) i
    let j ← scan_down arr nodes val_x axis (nodes.length + 1) j
    if i ≥ j then some (nodes, i)
    else do
      let ni ← nodes[i]?
      let nj ← nodes[j]?
      let nodes ← lset nodes i nj
      let nodes ← lset nodes j ni
      partition_loop arr val_x axis fuel (i + 1) j nodes

/-- `BVHTree::bvh_partition`: Hoare partition of `nodes[lo..hi)` around the
bv value of `node_x_index` on `axis`, returning the cut position. -/
def BVHTree.bvh_partition {E : Type} (t : BVHTree E) (lo hi : Nat)
    (node_x_index : NodeIndex) (axis : Nat) : Option (BVHTree E × Nat) := do
  let node_x ← get_node t.node_array node_x_index
  let val_x ← node_x.bv[axis]?
  let (nodes, cut) ← partition_loop t.node_array val_x axis
    (t.nodes.length + 1) lo hi t.nodes
  some ({ t with nodes := nodes }, cut)

/-- `BVHTree::bvh_median_of_3`. -/
def BVHTree.bvh_median_of_3 {E : Type} (t : BVHTree E) (lo mid hi axis : Nat) :
    Option NodeIndex := do
  let hlo ← t.nodes[lo]?
  let hmid ← t.nodes[mid]?
  let hhi ← t.nodes[hi]?
  let vlo ← bv_axis t.node_array hlo axis
  let vmid ← bv_axis t.node_array hmid axis
  let vhi ← bv_axis t.node_array hhi axis
  if vmid < vlo then
    if vhi < vmid then some hmid
    else if vhi < vlo then some hhi
    else some hlo
  else if vhi < vmid then
    if vhi < vlo then some hlo else some hhi
  else some hmid

/-- The `while (end - begin) > 3` quickselect loop of
`partition_nth_element`. -/
def pnth_loop {E : Type} (n axis : Nat) :
    Nat → BVHTree E → Nat → Nat → Option (BVHTree E)
  | 0, _, _, _ => none
  | fuel + 1, t, begin_, end_ =>
    if end_ - begin_ > 3 then do
      let med ← t.bvh_median_of_3 begin_ ((begin_ + end_) / 2) (end_ - 1) axis
      let (t, cut) ← t.bvh_partition begin_ end_ med axis
      if cut ≤ n then pnth_loop n axis fuel t cut end_
      else pnth_loop n axis fuel t begin_ cut
    else t.bvh_insertion_sort begin_ end_ axis

/-- `BVHTree::partition_nth_element`.  The internal fuel `end - begin + 1`
bounds the quickselect iterations (each iteration strictly shrinks the
segment in every terminating source run). -/
def BVHTree.partition_nth_element {E : Type} (t : BVHTree E)
    (begin_ end_ n axis : Nat) : Option (BVHTree E) :=
  pnth_loop n axis (end_ - begin_ + 1) t begin_ end_

/-- `BVHTree::split_leafs`: partition each `nth`-range in turn, stopping at
the first empty tail. -/
def BVHTree.split_leafs {E : Type} (t : BVHTree E) (nth : List Nat)
    (partitions axis : Nat) : Option (BVHTree E) :=
  go t (iter_range 0 (partitions - 1))
where
  go : BVHTree E → List Nat → Option (BVHTree E)
    | t, [] => some t
    | t, i :: rest => do
      let ni ← nth[i]?
      let np ← nth[partitions]?
      if ni ≥ np then some t
      else do
        let ni1 ← nth[i + 1]?
        let t ← t.partition_nth_element ni np ni1 axis
        go t rest

/-- `BVHDivNodesData` (the source misspells `brances_array_start`). -/
structure BVHDivNodesData where
  brances_array_start : Nat
  tree_offset : Int
  data : BVHBuildHelper
  depth : Nat
  i : Nat
  first_of_next_level : Nat

/-- The child-linking loop at the end of
`non_recursive_bvh_div_nodes_task_cb` (`for k in 0..tree_type` with a
`break` on the first empty child range), returning the filled child
count. -/
def link_children {E : Type} (d : BVHDivNodesData) (parent_index : NodeIndex)
    (pslot j : Nat) : BVHTree E → Nat → List Nat → Option (BVHTree E × Nat)
  | t, totnode, [] => some (t, totnode)
  | t, totnode, k :: rest => do
    let child_index := (((j * t.tree_type : Nat) : Int) + d.tree_offset
      + Int.ofNat k).toNat
    let child_level_index := child_index - d.first_of_next_level
    let clb ← d.data.implicit_leafs_index (d.depth + 1) child_level_index
    let cle ← d.data.implicit_leafs_index (d.depth + 1)
      (child_level_index + 1)
    if cle - clb > 1 then do
      let cslot := d.brances_array_start + child_index
      let _ ← t.node_array[cslot]?
      let chandle : NodeIndex := some cslot
      let parent ← t.node_array[pslot]?
      let pchildren ← lset parent.children k chandle
      let arr ← set_node t.node_array pslot
        { parent with children := pchildren }
      let child ← arr[cslot]?
      let arr ← set_node arr cslot { child with parent := some parent_index }
      link_children d parent_index pslot j { t with node_array := arr }
        (totnode + 1) rest
    else if cle - clb = 1 then do
      let chandle ← t.nodes[clb]?
      let parent ← t.node_array[pslot]?
      let pchildren ← lset parent.children k chandle
      let arr ← set_node t.node_array pslot
        { parent with children := pchildren }
      match chandle with
      | none => none
      | some ci => do
        let child ← arr[ci]?
        let arr ← set_node arr ci { child with parent := some parent_index }
        link_children d parent_index pslot j { t with node_array := arr }
          (totnode + 1) rest
    else some (t, totnode)

/-- `BVHTree::non_recursive_bvh_div_nodes_task_cb`: refit branch `j` of the
current level over its implicit leaf range, choose its split axis,
partition its leaf range into the children's sub-ranges, and link the
children. -/
def BVHTree.non_recursive_bvh_div_nodes_task_cb {E : Type} (t : BVHTree E)
    (d : BVHDivNodesData) (j : Nat) : Option (BVHTree E) := do
  let parent_level_index := j - d.i
  let nth0 : List Nat := List.replicate 33 0
  let parent_leafs_begin ← d.data.implicit_leafs_index d.depth
    parent_level_index
  let parent_leafs_end ← d.data.implicit_leafs_index d.depth
    (parent_level_index + 1)
  let pslot := d.brances_array_start + j
  let _ ← t.node_array[pslot]?
  let parent_index : NodeIndex := some pslot
  let t ← t.refit_kdop_hull parent_index parent_leafs_begin parent_leafs_end
  let parent ← t.node_array[pslot]?
  let split_axis ← get_largest_axis parent.bv
  let arr ← set_node t.node_array pslot
    { parent with main_axis := split_axis / 2 }
  let t := { t with node_array := arr }
  let nth ← lset nth0 0 parent_leafs_begin
  let nth ← lset nth t.tree_type parent_leafs_end
  let nth ← (iter_range 1 t.tree_type).foldlM
    (fun nth k => do
      let child_index := (((j * t.tree_type : Nat) : Int) + d.tree_offset
        + Int.ofNat k).toNat
      let child_level_index := child_index - d.first_of_next_level
      let v ← d.data.implicit_leafs_index (d.depth + 1) child_level_index
      lset nth k v)
    nth
  let t ← t.split_leafs nth t.tree_type split_axis
  let (t, totnode) ← link_children d parent_index pslot j t 0
    (iter_range 0 t.tree_type)
  let parent ← t.node_array[pslot]?
  let arr ← set_node t.node_array pslot { parent with totnode := totnode }
  some { t with node_array := arr }

/-- The level loop of `non_recursive_bvh_div_nodes` (`while i ≤
num_branches`).  `i` strictly increases every level, so internal fuel
`num_branches + 2` never cuts a source run short. -/
def level_loop {E : Type} (data : BVHBuildHelper) (tree_offset : Int)
    (bas num_branches : Nat) : Nat → Nat → Nat → BVHTree E →
    Option (BVHTree E)
  | 0, _, _, _ => none
  | fuel + 1, i, depth, t =>
    if i ≤ num_branches then do
      let first_of_next_level := (((i * t.tree_type : Nat) : Int)
        + tree_offset).toNat
      let i_stop := min first_of_next_level (num_branches + 1)
      let cb : BVHDivNodesData :=
        ⟨bas, tree_offset, data, depth, i, first_of_next_level⟩
      let t ← (iter_range i i_stop).foldlM
        (fun t i_task => t.non_recursive_bvh_div_nodes_task_cb cb i_task) t
      level_loop data tree_offset bas num_branches fuel first_of_next_level
        (depth + 1) t
    else some t

/-- `BVHTree::non_recursive_bvh_div_nodes`: the one-leaf special case
synthesizes a root at slot `branches_array_start + 1` whose single child is
the leaf (and patches `nodes[1]`); otherwise the implicit level-by-level
division runs. -/
def BVHTree.non_recursive_bvh_div_nodes {E : Type} (t : BVHTree E)
    (branches_array_start num_leafs : Nat) : Option (BVHTree E) := do
  let tree_type := t.tree_type
  let tree_offset : Int := 2 - (tree_type : Int)
  let num_branches := implicit_needed_branches tree_type num_leafs
  if num_leafs = 1 then do
    let rslot := branches_array_start + 1
    let _ ← t.node_array[rslot]?
    let root_index : NodeIndex := some rslot
    let t ← t.refit_kdop_hull root_index 0 num_leafs
    let root ← t.node_array[rslot]?
    let la ← get_largest_axis root.bv
    let child_handle ← t.nodes[0]?
    let children ← lset root.children 0 child_handle
    let root := { root with
      main_axis := la / 2
      totnode := 1
      children := children }
    let arr ← set_node t.node_array rslot root
    match child_handle with
    | none => none
    | some ci => do
      let child ← arr[ci]?
      let arr ← set_node arr ci { child with parent := some root_index }
      let nodes ← lset t.nodes 1 root_index
      some { t with node_array := arr, nodes := nodes }
  else do
    let data ← t.build_implicit_helper
    level_loop data tree_offset branches_array_start num_branches
      (num_branches + 2) 1 1 t

/-- `BVHTree::balance`: asserts it runs at most once (`totbranch == 0`),
divides the branches and records their handles at
`nodes[totleaf..totleaf + totbranch)`. -/
def BVHTree.balance {E : Type} (t : BVHTree E) : Option (BVHTree E) := do
  if t.totbranch = 0 then
    if t.totleaf = 0 then some t
    else do
      let t ← t.non_recursive_bvh_div_nodes (t.totleaf - 1) t.totleaf
      let totbranch := implicit_needed_branches t.tree_type t.totleaf
      let nodes ← (iter_range 0 totbranch).foldlM
        (fun nodes i => do
          let _ ← t.node_array[t.totleaf + i]?
          lset nodes (t.totleaf + i) (some (t.totleaf + i)))
        t.nodes
      some { t with nodes := nodes, totbranch := totbranch }
  else none

/-- `BVHTree::update_node`: the two recoverable error checks precede every
mutation; on success the leaf's hull is recomputed (optionally extended by
the moving point set) and re-inflated by epsilon.  The returned pair is the
source's `Result` together with the post-call tree. -/
def BVHTree.update_node {E : Type} (t : BVHTree E) (node_index : Nat)
    (co_many co_moving_many : List V3) :
    Option (Except BVHError Unit × BVHTree E) := do
  if node_index > t.totleaf then some (.error .IndexOutOfRange, t)
  else if co_moving_many ≠ [] ∧ co_many.length ≠ co_moving_many.length then
    some (.error .DifferentNumPoints, t)
  else do
    let node ← t.node_array[node_index]?
    let bv ← create_kdop_hull t.start_axis t.stop_axis co_many false node.bv
    let bv ← if co_moving_many ≠ [] then
        create_kdop_hull t.start_axis t.stop_axis co_moving_many true bv
      else pure bv
    let bv ← (iter_range t.start_axis t.stop_axis).foldlM
      (fun bv i => do
        let mn ← bv[2 * i]?
        let bv ← lset bv (2 * i) (mn - t.epsilon)
        let mx ← bv[2 * i + 1]?
        lset bv (2 * i + 1) (mx + t.epsilon))
      bv
    let arr ← set_node t.node_array node_index { node with bv := bv }
    some (.ok (), { t with node_array := arr })

/-- `BVHTree::overlap_thread_num`. -/
def BVHTree.overlap_thread_num {E : Type} (t : BVHTree E) : Option Nat := do
  let h ← t.nodes[t.totleaf]?
  let node ← get_node t.node_array h
  some (min t.tree_type node.totnode)

/-- `BVHTree::overlap_traverse` (no callback): recursive descent, expanding
`node_1` first; a leaf/leaf pair is emitted unless the two handles are the
identical node (self-overlap of one tree against itself). -/
def BVHTree.overlap_traverse {E : Type} (t other : BVHTree E)
    (start_axis stop_axis : Nat) : Nat → NodeIndex → NodeIndex →
    List (E × E) → Option (List (E × E))
  | 0, _, _, _ => none
  | fuel + 1, n1i, n2i, pairs => do
    let node_1 ← get_node t.node_array n1i
    let node_2 ← get_node other.node_array n2i
    let ov ← overlap_test E node_1 node_2 start_axis stop_axis
    if ov then
      if node_1.totnode = 0 then
        if node_2.totnode = 0 then
          if n1i = n2i then some pairs
          else do
            let e1 ← node_1.elem_index
            let e2 ← node_2.elem_index
            some (pairs ++ [(e1, e2)])
        else
          (iter_range 0 other.tree_type).foldlM
            (fun pairs j => do
              let child ← node_2.children[j]?
              match get_node other.node_array child with
              | some _ =>
                t.overlap_traverse other start_axis stop_axis fuel n1i child
                  pairs
              | none => some pairs)
            pairs
      else
        (iter_range 0 t.tree_type).foldlM
          (fun pairs j => do
            let child ← node_1.children[j]?
            match get_node t.node_array child with
            | some _ =>
              t.overlap_traverse other start_axis stop_axis fuel child n2i
                pairs
            | none => some pairs)
          pairs
    else some pairs

/-- `BVHTree::overlap_traverse_callback`: as `overlap_traverse`, but a
leaf/leaf pair is emitted only when the callback approves it. -/
def BVHTree.overlap_traverse_callback {E : Type} (t other : BVHTree E)
    (callback : E → E → Bool) (start_axis stop_axis : Nat) :
    Nat → NodeIndex → NodeIndex → List (E × E) → Option (List (E × E))
  | 0, _, _, _ => none
  | fuel + 1, n1i, n2i, pairs => do
    let node_1 ← get_node t.node_array n1i
    let node_2 ← get_node other.node_array n2i
    let ov ← overlap_test E node_1 node_2 start_axis stop_axis
    if ov then
      if node_1.totnode = 0 then
        if node_2.totnode = 0 then
          if n1i = n2i then some pairs
          else do
            let e1 ← node_1.elem_index
            let e2 ← node_2.elem_index
            if callback e1 e2 then some (pairs ++ [(e1, e2)])
            else some pairs
        else
          (iter_range 0 other.tree_type).foldlM
            (fun pairs j => do
              let child ← node_2.children[j]?
              match get_node other.node_array child with
              | some _ =>
                t.overlap_traverse_callback other callback start_axis
                  stop_axis fuel n1i child pairs
              | none => some pairs)
            pairs
      else
        (iter_range 0 t.tree_type).foldlM
          (fun pairs j => do
            let child ← node_1.children[j]?
            match get_node t.node_array child with
            | some _ =>
              t.overlap_traverse_callback other callback start_axis stop_axis
                fuel child n2i pairs
            | none => some pairs)
          pairs
    else some pairs

/-- `BVHTree::overlap`: `None` for an empty receiver, the axis
compatibility assertion, the fast root/root rejection, then full traversal;
an empty pair list is reported as `None`. -/
def BVHTree.overlap {E : Type} (t other : BVHTree E)
    (callback : Option (E → E → Bool)) (fuel : Nat) :
    Option (Option (List (E × E))) := do
  if t.totleaf = 0 then some none
  else do
    let _root_node_len ← t.overlap_thread_num
    if ¬(t.axis ≠ other.axis ∧ (t.axis = 14 ∨ other.axis = 14)
        ∧ (t.axis = 18 ∨ other.axis = 18)) then do
      let root_1_index ← t.nodes[t.totleaf]?
      let root_2_index ← other.nodes[other.totleaf]?
      let start_axis := min t.start_axis other.start_axis
      let stop_axis := min t.stop_axis other.stop_axis
      let root_1 ← get_node t.node_array root_1_index
      let root_2 ← get_node other.node_array root_2_index
      let ov ← overlap_test E root_1 root_2 start_axis stop_axis
      if ¬ov then some none
      else do
        let pairs ← match callback with
          | some cb =>
            t.overlap_traverse_callback other cb start_axis stop_axis fuel
              root_1_index root_2_index []
          | none =>
            t.overlap_traverse other start_axis stop_axis fuel root_1_index
              root_2_index []
        if pairs.isEmpty then some none else some (some pairs)
    else none

/-- `RayHitOptionalData<T, E>`. -/
structure RayHitOptionalData (E : Type) where
  elem_index : E
  co : V3
deriving DecidableEq, Repr

/-- `RayHitData<T, E, ExtraData>`. -/
structure RayHitData (E X : Type) where
  data : Option (RayHitOptionalData E)
  normal : Option V3
  dist : ℚ
  extra_data : Option X
deriving DecidableEq, Repr

/-- `RayHitData::new(dist)`. -/
def RayHitData.new (E X : Type) (dist : ℚ) : RayHitData E X :=
  { data := none, normal := none, dist := dist, extra_data := none }

/-- `RayCastData<T>`. -/
structure RayCastData where
  co : V3
  dir : V3
  ray_dot_axis : List ℚ
  idot_axis : List ℚ
  index : List Nat
deriving DecidableEq, Repr

/-- Per-axis part of `RayCastData::new`: the ray's dot with cardinal axis
`i`, zeroed (with "infinite" reciprocal) when within machine epsilon of
zero. -/
def rcd_axis (dir : V3) (i : Nat) : ℚ × ℚ :=
  let rda := dir.dot (bvhtree_kdop_axes i)
  if |rda| < default_epsilon then (0, t_max_value) else (rda, 1 / rda)

/-- Near/far bv slot indices for cardinal axis `i` given the reciprocal's
sign (`index[2i]`, `index[2i+1]` of `RayCastData::new`). -/
def rcd_index (idot : ℚ) (i : Nat) : Nat × Nat :=
  let lo : Nat := if idot < 0 then 1 else 0
  (lo + 2 * i, (1 - lo) + 2 * i)

/-- `RayCastData::new`. -/
def RayCastData.new (co dir : V3) : RayCastData :=
  let a0 := rcd_axis dir 0
  let a1 := rcd_axis dir 1
  let a2 := rcd_axis dir 2
  let i0 := rcd_index a0.2 0
  let i1 := rcd_index a1.2 1
  let i2 := rcd_index a2.2 2
  { co := co
    dir := dir
    ray_dot_axis := [a0.1, a1.1, a2.1] ++ List.replicate 10 0
    idot_axis := [a0.2, a1.2, a2.2] ++ List.replicate 10 0
    index := [i0.1, i0.2, i1.1, i1.2, i2.1, i2.2] }

/-- Fetch three scalars by checked index (panic order preserved). -/
def get3q (l : List ℚ) (i0 i1 i2 : Nat) : Option (ℚ × ℚ × ℚ) := do
  let a ← l[i0]?
  let b ← l[i1]?
  let c ← l[i2]?
  some (a, b, c)

/-- Fetch six scalars by checked index (panic order preserved). -/
def get6q (l : List ℚ) (i0 i1 i2 i3 i4 i5 : Nat) :
    Option (ℚ × ℚ × ℚ × ℚ × ℚ × ℚ) := do
  let a ← l[i0]?
  let b ← l[i1]?
  let c ← l[i2]?
  let d ← l[i3]?
  let e ← l[i4]?
  let f ← l[i5]?
  some (a, b, c, d, e, f)

/-- Fetch the six entries of `RayCastData::index` in order. -/
def get6n (l : List Nat) : Option (Nat × Nat × Nat × Nat × Nat × Nat) := do
  let a ← l[0]?
  let b ← l[1]?
  let c ← l[2]?
  let d ← l[3]?
  let e ← l[4]?
  let f ← l[5]?
  some (a, b, c, d, e, f)

/-- Decidable `<` on the scalar type as a `Bool` (Rust's `<`). -/
def qlt (a b : ℚ) : Bool := decide (a < b)

/-- Decidable `>` on the scalar type as a `Bool` (Rust's `>`). -/
def qgt (a b : ℚ) : Bool := decide (a > b)

/-- `BVHNode::ray_hit`: the 3-slab test against the cardinal axes, bounded
by the current best distance; `some none` is a miss, `some (some d)` the
entry distance. -/
def ray_hit (E : Type) (node : BVHNode E) (data : RayCastData) (dist : ℚ) :
    Option (Option ℚ) := do
  let (j0, j1, j2, j3, j4, j5) ← get6n data.index
  let (id0, id1, id2) ← get3q data.idot_axis 0 1 2
  let (b0, b1, b2, b3, b4, b5) ← get6q node.bv j0 j1 j2 j3 j4 j5
  let t1x := (b0 - data.co.x) * id0
  let t2x := (b1 - data.co.x) * id0
  let t1y := (b2 - data.co.y) * id1
  let t2y := (b3 - data.co.y) * id1
  let t1z := (b4 - data.co.z) * id2
  let t2z := (b5 - data.co.z) * id2
  if (qgt t1x t2y || qlt t2x t1y || qgt t1x t2z
      || qlt t2x t1z || qgt t1y t2z || qlt t2y t1z)
      || (qlt t2x 0 || qlt t2y 0 || qlt t2z 0)
      || (qgt t1x dist || qgt t1y dist || qgt t1z dist)
  then some none
  else some (some (max (max t1x t1y) t1z))

/-- `BVHTree::ray_cast_traverse`: depth-first with the slab test as guard,
leaves resolved through the optional callback, children visited in
`main_axis`-directed order. -/
def BVHTree.ray_cast_traverse {E X : Type} (t : BVHTree E)
    (data : RayCastData) (callback : Option (E → Option (RayHitData E X))) :
    Nat → NodeIndex → RayHitData E X → Option (RayHitData E X)
  | 0, _, _ => none
  | fuel + 1, node_index, r => do
    let node ← get_node t.node_array node_index
    let hit ← ray_hit E node data r.dist
    match hit with
    | none => some r
    | some dist =>
      if dist ≥ r.dist then some r
      else if node.totnode = 0 then
        match callback with
        | some cb => do
          let e ← node.elem_index
          match cb e with
          | some hit_data =>
            if hit_data.dist < r.dist then some hit_data else some r
          | none => some r
        | none => do
          let e ← node.elem_index
          some { r with
            data := some ⟨e, data.co + data.dir.scale dist⟩
            dist := dist }
      else do
        let rda ← data.ray_dot_axis[node.main_axis]?
        if rda > 0 then
          (iter_range 0 node.totnode).foldlM
            (fun r i => do
              let c ← node.children[i]?
              t.ray_cast_traverse data callback fuel c r)
            r
        else
          (iter_range 0 node.totnode).foldlM
            (fun r i => do
              let c ← node.children[node.totnode - 1 - i]?
              t.ray_cast_traverse data callback fuel c r)
            r

/-- `BVHTree::ray_cast_optional_callback`. -/
def BVHTree.ray_cast_optional_callback {E X : Type} (t : BVHTree E)
    (co dir : V3) (callback : Option (E → Option (RayHitData E X)))
    (fuel : Nat) : Option (Option (RayHitData E X)) := do
  if t.totleaf = 0 then some none
  else do
    let root_index ← t.nodes[t.totleaf]?
    let data := RayCastData.new co dir
    let hit_data := RayHitData.new E X t_max_value
    let r ← t.ray_cast_traverse data callback fuel root_index hit_data
    if r.data.isSome then some (some r) else some none

/-- `BVHTree::ray_cast` (mandatory callback). -/
def BVHTree.ray_cast {E X : Type} (t : BVHTree E) (co dir : V3)
    (callback : E → Option (RayHitData E X)) (fuel : Nat) :
    Option (Option (RayHitData E X)) :=
  t.ray_cast_optional_callback co dir (some callback) fuel

/-- `BVHTree::ray_cast_no_callback`. -/
def BVHTree.ray_cast_no_callback {E : Type} (t : BVHTree E) (co dir : V3)
    (fuel : Nat) : Option (Option (RayHitData E Unit)) :=
  t.ray_cast_optional_callback co dir none fuel

/-- `NearestData<T, E>`. -/
structure NearestData (E : Type) where
  elem_index : Option E
  co : Option V3
  normal : Option V3
  dist_sq : ℚ
deriving DecidableEq, Repr

/-- `BVHNode::cal_nearest_point_squared`: clamp the projected query point
into the node's cardinal-axis bounds. -/
def cal_nearest_point_squared (E : Type) (node : BVHNode E) (proj : V3) :
    Option V3 := do
  let b0 ← node.bv[0]?
  let b1 ← node.bv[1]?
  let b2 ← node.bv[2]?
  let b3 ← node.bv[3]?
  let b4 ← node.bv[4]?
  let b5 ← node.bv[5]?
  let vx := if b0 > proj.x then b0 else proj.x
  let nx := if b1 < vx then b1 else vx
  let vy := if b2 > proj.y then b2 else proj.y
  let ny := if b3 < vy then b3 else vy
  let vz := if b4 > proj.z then b4 else proj.z
  let nz := if b5 < vz then b5 else vz
  some ⟨nx, ny, nz⟩

/-- `BVHTree::find_nearest_dfs`: leaves answer through the callback or the
box's own nearest point; children are pruned by their box's squared
distance against the running best and visited in a `main_axis`-directed
order. -/
def BVHTree.find_nearest_dfs {E : Type} (t : BVHTree E) (co : V3)
    (proj : List ℚ) (callback : Option (E → V3 → NearestData E → NearestData E)) :
    Nat → NodeIndex → NearestData E → Option (NearestData E)
  | 0, _, _ => none
  | fuel + 1, node_index, r => do
    let node ← get_node t.node_array node_index
    let p0 ← proj[0]?
    let p1 ← proj[1]?
    let p2 ← proj[2]?
    let proj_v3 : V3 := ⟨p0, p1, p2⟩
    if node.totnode = 0 then
      match callback with
      | some cb => do
        let e ← node.elem_index
        some (cb e co r)
      | none => do
        let nearest ← cal_nearest_point_squared E node proj_v3
        let dist_sq := proj_v3.distance2 nearest
        some { elem_index := node.elem_index, co := some nearest,
               normal := none, dist_sq := dist_sq }
    else do
      let pm ← proj[node.main_axis]?
      let c0 ← node.children[0]?
      let child0 ← get_node t.node_array c0
      let bvm ← child0.bv[node.main_axis * 2 + 1]?
      if pm ≤ bvm then
        (iter_range 0 node.totnode).foldlM
          (fun r i => do
            let ch ← node.children[i]?
            let node_child ← get_node t.node_array ch
            let nearest ← cal_nearest_point_squared E node_child proj_v3
            let d := proj_v3.distance2 nearest
            if d ≥ r.dist_sq then some r
            else t.find_nearest_dfs co proj callback fuel ch r)
          r
      else
        (iter_range 0 node.totnode).foldlM
          (fun r i => do
            let ch ← node.children[node.totnode - i - 1]?
            let node_child ← get_node t.node_array ch
            let nearest ← cal_nearest_point_squared E node_child proj_v3
            let d := proj_v3.distance2 nearest
            if d ≥ r.dist_sq then some r
            else t.find_nearest_dfs co proj callback fuel ch r)
          r

/-- `BVHTree::find_nearest_dfs_begin`: reject outright when the root's box
distance already exceeds the budget, otherwise traverse; a result with no
element recorded is `None`. -/
def BVHTree.find_nearest_dfs_begin {E : Type} (t : BVHTree E)
    (node_index : NodeIndex) (dist_sq : ℚ) (co : V3) (proj : List ℚ)
    (callback : Option (E → V3 → NearestData E → NearestData E))
    (fuel : Nat) : Option (Option (NearestData E)) := do
  let node ← get_node t.node_array node_index
  let p0 ← proj[0]?
  let p1 ← proj[1]?
  let p2 ← proj[2]?
  let proj_v3 : V3 := ⟨p0, p1, p2⟩
  let nearest ← cal_nearest_point_squared E node proj_v3
  if proj_v3.distance2 nearest ≥ dist_sq then some none
  else do
    let nd : NearestData E := ⟨none, none, none, dist_sq⟩
    let r ← t.find_nearest_dfs co proj callback fuel node_index nd
    if r.elem_index.isSome then some (some r) else some none

/-- `BVHTree::find_nearest`: the `self.node_array.get(root_index.0)?` line
turns an absent root (e.g. the empty tree's unknown sentinel) into the
query result `None` rather than a panic. -/
def BVHTree.find_nearest {E : Type} (t : BVHTree E) (co : V3) (dist_sq : ℚ)
    (callback : Option (E → V3 → NearestData E → NearestData E))
    (fuel : Nat) : Option (Option (NearestData E)) := do
  let root_index ← t.nodes[t.totleaf]?
  match get_node t.node_array root_index with
  | none => some none
  | some _ => do
    let proj0 : List ℚ := List.replicate 13 0
    let proj ← (iter_range t.start_axis t.stop_axis).foldlM
      (fun proj i => lset proj i (co.dot (bvhtree_kdop_axes i))) proj0
    t.find_nearest_dfs_begin root_index dist_sq co proj callback fuel

/-- `BVHTree::find_nearest_no_callback`. -/
def BVHTree.find_nearest_no_callback {E : Type} (t : BVHTree E) (co : V3)
    (dist_sq : ℚ) (fuel : Nat) : Option (Option (NearestData E)) :=
  t.find_nearest co dist_sq none fuel

/-!
Concrete evaluation setup.  Batteries marks the `Rat` arithmetic operations
irreducible, which blocks `decide`'s reduction of concrete runs of the
embedding; restore their reducibility for the kernel evaluations below.
-/

set_option allowUnsafeReducibility true
attribute [semireducible] Rat.add Rat.mul Rat.sub Rat.inv
set_option maxRecDepth 100000

/-- Structural decidable equality for `Except`, used to state results of
`update_node` runs. -/
instance {e a : Type _} [DecidableEq e] [DecidableEq a] :
    DecidableEq (Except e a) := fun x y =>
  match x, y with
  | .ok x, .ok y =>
    match decEq x y with
    | isTrue h => isTrue (by rw [h])
    | isFalse h => isFalse (fun hh => by cases hh; exact h rfl)
  | .error x, .error y =>
    match decEq x y with
    | isTrue h => isTrue (by rw [h])
    | isFalse h => isFalse (fun hh => by cases hh; exact h rfl)
  | .ok _, .error _ => isFalse (fun hh => by cases hh)
  | .error _, .ok _ => isFalse (fun hh => by cases hh)

/-- The C1 scenario: `tree_type = 3`, `axis = 6`, `epsilon = 0.001`; insert
element `0` with points `[(-1,0,0), (1,0,0)]` and element `1` with points
`[(0,-1,0), (0,1,0)]`, then `balance()`. -/
def c1_pipeline : Option (BVHTree Nat) :=
  (BVHTree.new Nat 2 (1/1000) 3 6).bind fun t =>
  (t.insert 0 [⟨-1,0,0⟩, ⟨1,0,0⟩]).bind fun t =>
  (t.insert 1 [⟨0,-1,0⟩, ⟨0,1,0⟩]).bind fun t =>
  t.balance

/-- C1: the overlap part of the claim is false on the code.  On the C1
scenario, `overlap(self, None)` returns the pair list `[(0,1), (1,0)]` —
the unordered pair `{0,1}` once in each order — whose length is not 1, so
the tree does not report "exactly one pair". -/
theorem c1_counterexample :
    (c1_pipeline.bind fun t => t.overlap t none 100)
      = some (some [(0, 1), (1, 0)])
    ∧ ¬ ([((0:Nat), (1:Nat)), (1, 0)].length = 1) :=
  ⟨by decide, by decide⟩

/-- C1 (amended): after `balance()` the root's bv equals
`[-1.001, 1.001, -1.001, 1.001, -0.001, 0.001]`, and `overlap(self, None)`
reports the unordered pair `{0,1}` and no other pair, as the two ordered
entries `(0,1)` and `(1,0)`. -/
theorem c1_root_bv_and_overlap :
    (c1_pipeline.bind fun t =>
      (t.nodes[t.totleaf]?).bind fun h =>
      (get_node t.node_array h).map (fun nd => nd.bv))
      = some [-1001/1000, 1001/1000, -1001/1000, 1001/1000, -1/1000, 1/1000]
    ∧ (c1_pipeline.bind fun t => t.overlap t none 100)
      = some (some [(0, 1), (1, 0)]) :=
  ⟨by decide, by decide⟩

/-- A one-leaf balanced tree (`tree_type = 2`, `axis = 6`). -/
def c3_a_pipeline : Option (BVHTree Nat) :=
  (BVHTree.new Nat 1 (1/1000) 2 6).bind fun t =>
  (t.insert 0 [⟨0,0,0⟩]).bind fun t =>
  t.balance

/-- A validly constructed, balanced tree with zero leaves. -/
def c3_b_pipeline : Option (BVHTree Nat) :=
  (BVHTree.new Nat 1 (1/1000) 2 6).bind fun t =>
  t.balance

/-- C3: both trees construct and balance fine, and an overlap with an empty
*receiver* returns `None`; but `a.overlap(&b, None)` with `a` non-empty
and `b` the empty tree panics (`none` here): `b.nodes[b.totleaf]` is the
unknown sentinel, and the source unwraps the failed arena lookup of `b`'s
root. -/
theorem c3_overlap_empty_other_panics :
    c3_a_pipeline.isSome = true
    ∧ c3_b_pipeline.isSome = true
    ∧ (c3_a_pipeline.bind fun a => c3_b_pipeline.bind fun b =>
        a.overlap b none 100) = none
    ∧ (c3_b_pipeline.bind fun b => c3_a_pipeline.bind fun a =>
        b.overlap a none 100) = some none :=
  ⟨by decide, by decide, by decide, by decide⟩

/-- C4: `new()` accepts `axis = 18` (mapping it to axes `7..13`), but the
very first `insert` then panics — `bv` has length 18 while
`min_max_init`/`create_kdop_hull` address slots up to `2*13 - 1 = 25` — so
the documented valid configuration `axis = 18` aborts on a correct caller.
The other four documented axis values insert fine. -/
theorem c4_axis18_insert_panics :
    (BVHTree.new Nat 1 (1/1000) 2 18).isSome = true
    ∧ ((BVHTree.new Nat 1 (1/1000) 2 18).bind fun t =>
        t.insert 0 [⟨0,0,0⟩]) = none
    ∧ ((BVHTree.new Nat 1 (1/1000) 2 6).bind fun t =>
        t.insert 0 [⟨0,0,0⟩]).isSome = true
    ∧ ((BVHTree.new Nat 1 (1/1000) 2 8).bind fun t =>
        t.insert 0 [⟨0,0,0⟩]).isSome = true
    ∧ ((BVHTree.new Nat 1 (1/1000) 2 14).bind fun t =>
        t.insert 0 [⟨0,0,0⟩]).isSome = true
    ∧ ((BVHTree.new Nat 1 (1/1000) 2 26).bind fun t =>
        t.insert 0 [⟨0,0,0⟩]).isSome = true :=
  ⟨by decide, by decide, by decide, by decide, by decide, by decide⟩

/-- A single-leaf tree (element `7`, one point `(1,2,3)`, `axis = 6`,
`epsilon = 0.001`) built and balanced at the given arity. -/
def c5_single_leaf (tree_type : Nat) : Option (BVHTree Nat) :=
  (BVHTree.new Nat 1 (1/1000) tree_type 6).bind fun t =>
  (t.insert 7 [⟨1,2,3⟩]).bind fun t =>
  t.balance

/-- C5: the claim fails at `tree_type = 3`: after `balance()` the
single-leaf tree has `totbranch = 0`, not `1`
(`implicit_needed_branches 3 1 = max 1 1 / 2 = 0`). -/
theorem c5_counterexample :
    (c5_single_leaf 3).map (fun t => t.totbranch) = some 0
    ∧ ¬ ((0 : Nat) = 1) :=
  ⟨by decide, by decide⟩

/-- C5 (amended): for every `tree_type ∈ [2,32]`, the balanced single-leaf
tree has `totbranch = implicit_needed_branches tree_type 1`, which is `1`
exactly for `tree_type = 2` and `0` for `tree_type ∈ [3,32]`; in every case
a root branch is reachable at `nodes[totleaf]` with exactly one child
(`totnode = 1`), that child is the leaf handle `nodes[0]`, and that leaf
carries the inserted element. -/
theorem c5_single_leaf_amended :
    ∀ tree_type : Nat, tree_type < 33 → 2 ≤ tree_type →
    (implicit_needed_branches tree_type 1
        = if tree_type = 2 then 1 else 0)
    ∧ (c5_single_leaf tree_type).map (fun t => t.totbranch)
        = some (implicit_needed_branches tree_type 1)
    ∧ ((c5_single_leaf tree_type).bind fun t =>
        (t.nodes[t.totleaf]?).bind fun h =>
        (get_node t.node_array h).map fun nd => nd.totnode)
        = some 1
    ∧ ((c5_single_leaf tree_type).bind fun t =>
        (t.nodes[t.totleaf]?).bind fun h =>
        (get_node t.node_array h).bind fun nd => nd.children[0]?)
        = some (some 0)
    ∧ ((c5_single_leaf tree_type).bind fun t => t.nodes[0]?)
        = some (some 0)
    ∧ ((c5_single_leaf tree_type).bind fun t =>
        (get_node t.node_array (some 0)).bind fun nd => nd.elem_index)
        = some 7 := by
  decide

/-- C5 witness: the amended statement instantiated at `tree_type = 3`. -/
theorem c5_single_leaf_amended_witness :
    (implicit_needed_branches 3 1 = if 3 = 2 then 1 else 0)
    ∧ (c5_single_leaf 3).map (fun t => t.totbranch)
        = some (implicit_needed_branches 3 1)
    ∧ ((c5_single_leaf 3).bind fun t =>
        (t.nodes[t.totleaf]?).bind fun h =>
        (get_node t.node_array h).map fun nd => nd.totnode)
        = some 1
    ∧ ((c5_single_leaf 3).bind fun t =>
        (t.nodes[t.totleaf]?).bind fun h =>
        (get_node t.node_array h).bind fun nd => nd.children[0]?)
        = some (some 0)
    ∧ ((c5_single_leaf 3).bind fun t => t.nodes[0]?) = some (some 0)
    ∧ ((c5_single_leaf 3).bind fun t =>
        (get_node t.node_array (some 0)).bind fun nd => nd.elem_index)
        = some 7 :=
  c5_single_leaf_amended 3 (by decide) (by decide)

/-- A balanced two-leaf tree (`tree_type = 2`, `axis = 6`): element `0` at
the origin, element `1` at `(5,5,5)`; `totleaf = 2` afterwards. -/
def c6_pipeline : Option (BVHTree Nat) :=
  (BVHTree.new Nat 2 (1/1000) 2 6).bind fun t =>
  (t.insert 0 [⟨0,0,0⟩]).bind fun t =>
  (t.insert 1 [⟨5,5,5⟩]).bind fun t =>
  t.balance

/-- C6: the claim fails at `node_index = totleaf`: the guard is
`node_index > totleaf`, so the non-leaf index `totleaf` (= 2 here, the
arena slot that holds the root branch after balancing) is accepted and the
call returns `Ok`, where the claim demands `Err(IndexOutOfRange)` for every
`node_index ≥ totleaf`. -/
theorem c6_counterexample :
    (c6_pipeline.map fun t => t.totleaf) = some 2
    ∧ (c6_pipeline.bind fun t =>
        (t.update_node 2 [⟨9,9,9⟩] []).map Prod.fst)
        = some (Except.ok ())
    ∧ (Except.ok () : Except BVHError Unit) ≠ Except.error .IndexOutOfRange :=
  ⟨by decide, by decide, by decide⟩

/-- A balanced two-leaf tree with `epsilon = 0.1`: element `0` is the
single point `(1,0,0)`, element `1` the single point `(0.72, 0.72, 0)`;
the query point is the origin.  Element `0` is the unique nearest point
(squared distance `1 < 648/625`), but element `1`'s inflated box is nearer
(squared box distance `961/1250 < 81/100`). -/
def c8_pipeline : Option (BVHTree Nat) :=
  (BVHTree.new Nat 2 (1/10) 2 6).bind fun t =>
  (t.insert 0 [⟨1,0,0⟩]).bind fun t =>
  (t.insert 1 [⟨18/25,18/25,0⟩]).bind fun t =>
  t.balance

/-- C8: the claim fails on the code.  Element `0` is the unique
analytically nearest point to the origin (`1 < 648/625`), yet
`find_nearest_no_callback` with a large budget returns element `1`,
because the traversal measures distances to the epsilon-inflated leaf
boxes, not to the points. -/
theorem c8_counterexample :
    V3.distance2 ⟨0,0,0⟩ ⟨1,0,0⟩ = 1
    ∧ V3.distance2 ⟨0,0,0⟩ ⟨18/25,18/25,0⟩ = 648/625
    ∧ (1 : ℚ) < 648/625
    ∧ (c8_pipeline.bind fun t =>
        (t.find_nearest_no_callback ⟨0,0,0⟩ 100 100).map fun r =>
          r.map fun nd => nd.elem_index)
        = some (some (some 1)) :=
  ⟨by decide, by decide, by decide, by decide⟩

/-- C8 (amended): `find_nearest_no_callback` answers with distances to the
epsilon-inflated leaf boxes, not to the original points.  On this tree the
two leaves' squared box distances to the origin are `81/100` (element `0`)
and `961/1250` (element `1`); the query returns the element of minimal box
distance, `1`, with exactly that `dist_sq`; and a budget of `4/5` — below
the true minimum squared point distance `1` — still returns `Some`
(element `1`), because `961/1250 < 4/5`. -/
theorem c8_box_distance_semantics :
    (c8_pipeline.bind fun t =>
        (get_node t.node_array (some 0)).bind fun nd =>
        (cal_nearest_point_squared Nat nd ⟨0,0,0⟩).map fun p =>
          V3.distance2 ⟨0,0,0⟩ p) = some (81/100)
    ∧ (c8_pipeline.bind fun t =>
        (get_node t.node_array (some 1)).bind fun nd =>
        (cal_nearest_point_squared Nat nd ⟨0,0,0⟩).map fun p =>
          V3.distance2 ⟨0,0,0⟩ p) = some (961/1250)
    ∧ (961/1250 : ℚ) < 81/100
    ∧ (c8_pipeline.bind fun t =>
        (t.find_nearest_no_callback ⟨0,0,0⟩ 100 100).map fun r =>
          r.map fun nd => (nd.elem_index, nd.dist_sq))
        = some (some (some 1, 961/1250))
    ∧ (4/5 : ℚ) < 1
    ∧ (c8_pipeline.bind fun t =>
        (t.find_nearest_no_callback ⟨0,0,0⟩ (4/5) 100).map fun r =>
          r.map fun nd => (nd.elem_index, nd.dist_sq))
        = some (some (some 1, 961/1250)) :=
  ⟨by decide, by decide, by decide, by decide, by decide, by decide⟩

/-- C10: `update_node` is atomic on error — both recoverable error returns
precede every mutation, so the tree handed back with an `Err` is the
caller's tree unchanged. -/
theorem c10_update_node_atomic {E : Type} (t : BVHTree E) (node_index : Nat)
    (co_many co_moving_many : List V3) (e : BVHError) (t' : BVHTree E)
    (h : t.update_node node_index co_many co_moving_many
          = some (.error e, t')) :
    t' = t := by
  unfold BVHTree.update_node at h
  split at h
  · simp only [Option.some.injEq, Prod.mk.injEq] at h
    exact h.2.symm
  · split at h
    · simp only [Option.some.injEq, Prod.mk.injEq] at h
      exact h.2.symm
    · exfalso
      simp only [Option.bind_eq_bind', Option.bind_eq_some] at h
      obtain ⟨nd, -, bv1, -, h⟩ := h
      by_cases hm : co_moving_many ≠ []
      · rw [if_pos hm] at h
        simp only [Option.bind_eq_some] at h
        obtain ⟨bv2, -, bv3, -, arr, -, h⟩ := h
        simp only [Option.some.injEq, Prod.mk.injEq] at h
        exact absurd h.1 (by simp)
      · rw [if_neg hm] at h
        simp only [Option.pure_def, Option.some_bind, Option.bind_eq_some] at h
        obtain ⟨bv3, -, arr, -, h⟩ := h
        simp only [Option.some.injEq, Prod.mk.injEq] at h
        exact absurd h.1 (by simp)

/-- A minimal tree value for exercising `update_node`'s error path. -/
def c10_t : BVHTree Nat := ⟨[], [], 0, 0, 0, 0, 0, 0, 0⟩

/-- C10 witness: a concrete failing `update_node` call returns
`Err(IndexOutOfRange)` with the tree unchanged, and the atomicity theorem
applies to it. -/
theorem c10_update_node_atomic_witness :
    c10_t.update_node 1 [] [] = some (.error .IndexOutOfRange, c10_t)
    ∧ c10_t = c10_t :=
  ⟨by decide,
   c10_update_node_atomic c10_t 1 [] [] .IndexOutOfRange c10_t (by decide)⟩


/-- Generic spec for the per-axis `(min,max)` pair folds of the source: a
fold over `range' s n` whose step at axis `i` rewrites only the pair
`(2i, 2i+1)` by `(F i, G i)`. -/
theorem pair_range_fold {step : List ℚ → Nat → Option (List ℚ)}
    {F G : Nat → ℚ → ℚ}
    (hstep : ∀ bv i v w, bv[2*i]? = some v → bv[2*i+1]? = some w →
      ∃ bv', step bv i = some bv' ∧ bv'.length = bv.length ∧
        bv'[2*i]? = some (F i v) ∧ bv'[2*i+1]? = some (G i w) ∧
        ∀ j, j ≠ 2*i → j ≠ 2*i+1 → bv'[j]? = bv[j]?) :
    ∀ n s bv, (∀ i, s ≤ i → i < s + n → 2*i+1 < bv.length) →
    ∃ bv', (List.range' s n).foldlM step bv = some bv'
      ∧ bv'.length = bv.length
      ∧ (∀ i, s ≤ i → i < s + n →
          (∀ v, bv[2*i]? = some v → bv'[2*i]? = some (F i v))
          ∧ (∀ w, bv[2*i+1]? = some w → bv'[2*i+1]? = some (G i w)))
      ∧ (∀ j, (∀ i, s ≤ i → i < s + n → j ≠ 2*i ∧ j ≠ 2*i+1) →
          bv'[j]? = bv[j]?) := by
  intro n
  induction n with
  | zero =>
    intro s bv _
    exact ⟨bv, rfl, rfl, fun i h1 h2 => absurd h2 (by omega),
      fun j _ => rfl⟩
  | succ n ih =>
    intro s bv hb
    have hs1 : 2*s+1 < bv.length := hb s le_rfl (by omega)
    have hs0 : 2*s < bv.length := by omega
    obtain ⟨v, hv⟩ : ∃ v, bv[2*s]? = some v :=
      ⟨bv[2*s], List.getElem?_eq_getElem hs0⟩
    obtain ⟨w, hw⟩ : ∃ w, bv[2*s+1]? = some w :=
      ⟨bv[2*s+1], List.getElem?_eq_getElem hs1⟩
    obtain ⟨bv1, hstep1, hlen1, hget0, hget1, hother⟩ := hstep bv s v w hv hw
    obtain ⟨bv', hfold, hlen', hinr, houtr⟩ := ih (s+1) bv1
      (fun i h1 h2 => by rw [hlen1]; exact hb i (by omega) (by omega))
    refine ⟨bv', ?_, by rw [hlen', hlen1], ?_, ?_⟩
    · rw [List.range'_succ s n 1, List.foldlM_cons, hstep1]
      exact hfold
    · intro i h1 h2
      rcases eq_or_lt_of_le h1 with rfl | hlt
      · constructor
        · intro v' hv'
          rw [hv] at hv'
          injection hv' with hv'
          subst hv'
          rw [houtr (2*s) (fun i' hi1 hi2 => ⟨by omega, by omega⟩)]
          exact hget0
        · intro w' hw'
          rw [hw] at hw'
          injection hw' with hw'
          subst hw'
          rw [houtr (2*s+1) (fun i' hi1 hi2 => ⟨by omega, by omega⟩)]
          exact hget1
      · have hne0 : (2*i : Nat) ≠ 2*s := by omega
        have hne1 : (2*i : Nat) ≠ 2*s+1 := by omega
        have hne2 : (2*i+1 : Nat) ≠ 2*s := by omega
        have hne3 : (2*i+1 : Nat) ≠ 2*s+1 := by omega
        obtain ⟨hi0, hi1⟩ := hinr i (by omega) (by omega)
        constructor
        · intro v' hv'
          exact hi0 v' (by rw [hother (2*i) hne0 hne1]; exact hv')
        · intro w' hw'
          exact hi1 w' (by rw [hother (2*i+1) hne2 hne3]; exact hw')
    · intro j hj
      rw [houtr j (fun i hi1 hi2 => hj i (by omega) (by omega)),
        hother j (hj s le_rfl (by omega)).1 (hj s le_rfl (by omega)).2]

/-- Spec of `min_max_init`: every active pair becomes
`(t_max_value, t_min_value)`, nothing else changes. -/
theorem min_max_init_spec (s e : Nat) (bv : List ℚ)
    (hb : ∀ i, s ≤ i → i < e → 2*i+1 < bv.length) :
    ∃ bv', min_max_init s e bv = some bv'
      ∧ bv'.length = bv.length
      ∧ (∀ i, s ≤ i → i < e →
          bv'[2*i]? = some t_max_value ∧ bv'[2*i+1]? = some t_min_value)
      ∧ (∀ j, (∀ i, s ≤ i → i < e → j ≠ 2*i ∧ j ≠ 2*i+1) →
          bv'[j]? = bv[j]?) := by
  have key := @pair_range_fold
    (fun bv i => do
      let bv ← lset bv (2 * i) t_max_value
      lset bv (2 * i + 1) t_min_value)
    (fun _ _ => t_max_value) (fun _ _ => t_min_value)
    (fun bv i v w hv hw => by
      have h0 : 2*i < bv.length := by
        have := List.getElem?_eq_some.mp hv
        exact this.1
      have h1 : 2*i+1 < bv.length := by
        have := List.getElem?_eq_some.mp hw
        exact this.1
      refine ⟨(bv.set (2*i) t_max_value).set (2*i+1) t_min_value, ?_, ?_, ?_, ?_, ?_⟩
      · simp [lset, h0, h1, List.length_set]
      · simp [List.length_set]
      · rw [List.getElem?_set_ne (by omega),
          List.getElem?_set_self (by simpa using h0)]
      · rw [List.getElem?_set_self (by simp [List.length_set]; omega)]
      · intro j hj0 hj1
        rw [List.getElem?_set_ne (by omega), List.getElem?_set_ne (by omega)])
    (e - s) s bv (fun i h1 h2 => hb i h1 (by omega))
  obtain ⟨bv', hfold, hlen, hinr, houtr⟩ := key
  refine ⟨bv', ?_, hlen, ?_, ?_⟩
  · unfold min_max_init iter_range
    exact hfold
  · intro i h1 h2
    obtain ⟨hf, hg⟩ := hinr i h1 (by omega)
    have h1' : 2*i+1 < bv.length := hb i h1 h2
    exact ⟨hf bv[2*i] (List.getElem?_eq_getElem (by omega)),
           hg bv[2*i+1] (List.getElem?_eq_getElem h1')⟩
  · intro j hj
    exact houtr j (fun i hi1 hi2 => hj i hi1 (by omega))

/-- Spec of one point's pass of the hull fold: the active pair `(2i,2i+1)`
is min/max-merged with the point's projection. -/
theorem hull_point_spec (s e : Nat) (co : V3) (bv : List ℚ)
    (hb : ∀ i, s ≤ i → i < e → 2*i+1 < bv.length) :
    ∃ bv', (iter_range s e).foldlM
      (fun bv i => do
        let new_min_max := co.dot (bvhtree_kdop_axes i)
        let mn ← bv[2 * i]?
        let bv ← if new_min_max < mn then lset bv (2 * i) new_min_max
                 else pure bv
        let mx ← bv[2 * i + 1]?
        if new_min_max > mx then lset bv (2 * i + 1) new_min_max
        else pure bv) bv = some bv'
      ∧ bv'.length = bv.length
      ∧ (∀ i, s ≤ i → i < e →
          (∀ v, bv[2*i]? = some v →
            bv'[2*i]? = some (min v (co.dot (bvhtree_kdop_axes i))))
          ∧ (∀ w, bv[2*i+1]? = some w →
            bv'[2*i+1]? = some (max w (co.dot (bvhtree_kdop_axes i)))))
      ∧ (∀ j, (∀ i, s ≤ i → i < e → j ≠ 2*i ∧ j ≠ 2*i+1) →
          bv'[j]? = bv[j]?) := by
  have key := @pair_range_fold
    (fun bv i => do
      let new_min_max := co.dot (bvhtree_kdop_axes i)
      let mn ← bv[2 * i]?
      let bv ← if new_min_max < mn then lset bv (2 * i) new_min_max
               else pure bv
      let mx ← bv[2 * i + 1]?
      if new_min_max > mx then lset bv (2 * i + 1) new_min_max
      else pure bv)
    (fun i v => min v (co.dot (bvhtree_kdop_axes i)))
    (fun i w => max w (co.dot (bvhtree_kdop_axes i)))
    (fun bv i v w hv hw => by
      have h0 : 2*i < bv.length := (List.getElem?_eq_some.mp hv).1
      have h1 : 2*i+1 < bv.length := (List.getElem?_eq_some.mp hw).1
      have hww : bv[2*i+1] = w := by
        have := List.getElem?_eq_getElem h1
        rw [hw] at this
        exact (Option.some.inj this).symm
      by_cases hlt : co.dot (bvhtree_kdop_axes i) < v
      · by_cases hgt : co.dot (bvhtree_kdop_axes i) > w
        · refine ⟨(bv.set (2*i) (co.dot (bvhtree_kdop_axes i))).set (2*i+1)
              (co.dot (bvhtree_kdop_axes i)), ?_, ?_, ?_, ?_, ?_⟩
          · simp [hv, hww, hlt, hgt, lset, h0, h1, List.length_set,
              List.getElem?_set_ne, Nat.ne_of_lt (by omega : 2*i < 2*i+1)]
          · simp [List.length_set]
          · rw [List.getElem?_set_ne (by omega),
              List.getElem?_set_self (by simpa using h0)]
            exact congrArg some (min_eq_right (le_of_lt hlt)).symm
          · rw [List.getElem?_set_self (by simp [List.length_set]; omega)]
            exact congrArg some (max_eq_right (le_of_lt hgt)).symm
          · intro j hj0 hj1
            rw [List.getElem?_set_ne (by omega), List.getElem?_set_ne (by omega)]
        · refine ⟨bv.set (2*i) (co.dot (bvhtree_kdop_axes i)), ?_, ?_, ?_, ?_, ?_⟩
          · simp [hv, hww, hlt, hgt, lset, h0, h1, List.length_set,
              List.getElem?_set_ne, Nat.ne_of_lt (by omega : 2*i < 2*i+1)]
          · simp [List.length_set]
          · rw [List.getElem?_set_self (by simpa using h0)]
            exact congrArg some (min_eq_right (le_of_lt hlt)).symm
          · rw [List.getElem?_set_ne (by omega), hw]
            exact congrArg some (max_eq_left (le_of_not_lt hgt)).symm
          · intro j hj0 hj1
            rw [List.getElem?_set_ne (by omega)]
      · by_cases hgt : co.dot (bvhtree_kdop_axes i) > w
        · refine ⟨bv.set (2*i+1) (co.dot (bvhtree_kdop_axes i)), ?_, ?_, ?_, ?_, ?_⟩
          · simp [hv, hww, hlt, hgt, lset, h0, h1, List.length_set]
          · simp [List.length_set]
          · rw [List.getElem?_set_ne (by omega), hv]
            exact congrArg some (min_eq_left (le_of_not_lt hlt)).symm
          · rw [List.getElem?_set_self (by simpa using h1)]
            exact congrArg some (max_eq_right (le_of_lt hgt)).symm
          · intro j hj0 hj1
            rw [List.getElem?_set_ne (by omega)]
        · refine ⟨bv, ?_, rfl, ?_, ?_, fun j hj0 hj1 => rfl⟩
          · simp [hv, hw, hww, hlt, hgt]
          · rw [hv]
            exact congrArg some (min_eq_left (le_of_not_lt hlt)).symm
          · rw [hw]
            exact congrArg some (max_eq_left (le_of_not_lt hgt)).symm)
    (e - s) s bv (fun i h1 h2 => hb i h1 (by omega))
  obtain ⟨bv', hfold, hlen, hinr, houtr⟩ := key
  refine ⟨bv', ?_, hlen, ?_, ?_⟩
  · unfold iter_range
    exact hfold
  · intro i h1 h2
    exact hinr i h1 (by omega)
  · intro j hj
    exact houtr j (fun i hi1 hi2 => hj i hi1 (by omega))

/-- Spec of the full hull point loop: each active pair accumulates the
min/max of all projections, folded left over the point list. -/
theorem hull_points_spec (s e : Nat) (cos : List V3) :
    ∀ bv : List ℚ, (∀ i, s ≤ i → i < e → 2*i+1 < bv.length) →
    ∃ bv', cos.foldlM
      (fun bv co =>
        (iter_range s e).foldlM
          (fun bv i => do
            let new_min_max := co.dot (bvhtree_kdop_axes i)
            let mn ← bv[2 * i]?
            let bv ← if new_min_max < mn then lset bv (2 * i) new_min_max
                     else pure bv
            let mx ← bv[2 * i + 1]?
            if new_min_max > mx then lset bv (2 * i + 1) new_min_max
            else pure bv)
          bv) bv = some bv'
      ∧ bv'.length = bv.length
      ∧ (∀ i, s ≤ i → i < e →
          (∀ v, bv[2*i]? = some v →
            bv'[2*i]? = some (cos.foldl
              (fun v p => min v (p.dot (bvhtree_kdop_axes i))) v))
          ∧ (∀ w, bv[2*i+1]? = some w →
            bv'[2*i+1]? = some (cos.foldl
              (fun w p => max w (p.dot (bvhtree_kdop_axes i))) w)))
      ∧ (∀ j, (∀ i, s ≤ i → i < e → j ≠ 2*i ∧ j ≠ 2*i+1) →
          bv'[j]? = bv[j]?) := by
  induction cos with
  | nil =>
    intro bv _
    exact ⟨bv, rfl, rfl, fun i h1 h2 =>
      ⟨fun v hv => hv, fun w hw => hw⟩, fun j _ => rfl⟩
  | cons p rest ih =>
    intro bv hb
    obtain ⟨bv1, h1fold, h1len, h1in, h1out⟩ := hull_point_spec s e p bv hb
    obtain ⟨bv', hfold, hlen, hinr, houtr⟩ := ih bv1
      (fun i hi1 hi2 => by rw [h1len]; exact hb i hi1 hi2)
    refine ⟨bv', ?_, by rw [hlen, h1len], ?_, ?_⟩
    · rw [List.foldlM_cons, h1fold]
      exact hfold
    · intro i hi1 hi2
      obtain ⟨hf1, hg1⟩ := h1in i hi1 hi2
      obtain ⟨hf, hg⟩ := hinr i hi1 hi2
      constructor
      · intro v hv
        rw [List.foldl_cons]
        exact hf (min v (p.dot (bvhtree_kdop_axes i))) (hf1 v hv)
      · intro w hw
        rw [List.foldl_cons]
        exact hg (max w (p.dot (bvhtree_kdop_axes i))) (hg1 w hw)
    · intro j hj
      rw [houtr j hj, h1out j hj]

/-- Spec of `create_kdop_hull` with `moving = false` on a `bv` of the
asserted length: every active pair becomes the min/max of the projections
folded from the `(t_max_value, t_min_value)` sentinels. -/
theorem create_kdop_hull_spec (s e : Nat) (cos : List V3) (bv : List ℚ)
    (hlen : bv.length = e * 2) :
    ∃ bv', create_kdop_hull s e cos false bv = some bv'
      ∧ bv'.length = e * 2
      ∧ ∀ i, s ≤ i → i < e →
          bv'[2*i]? = some (cos.foldl
            (fun v p => min v (p.dot (bvhtree_kdop_axes i))) t_max_value)
          ∧ bv'[2*i+1]? = some (cos.foldl
            (fun w p => max w (p.dot (bvhtree_kdop_axes i))) t_min_value) := by
  have hb : ∀ i, s ≤ i → i < e → 2*i+1 < bv.length := by
    intro i h1 h2
    omega
  obtain ⟨bvI, hmmi, hmmilen, hmmiin, hmmiout⟩ := min_max_init_spec s e bv hb
  obtain ⟨bv', hfold, hlen', hinr, houtr⟩ := hull_points_spec s e cos bvI
    (fun i h1 h2 => by rw [hmmilen]; exact hb i h1 h2)
  refine ⟨bv', ?_, by rw [hlen', hmmilen, hlen], ?_⟩
  · unfold create_kdop_hull
    simp only [Bool.false_eq_true, reduceIte, hmmi, Option.some_bind, Option.bind_eq_bind',
      Option.pure_def]
    rw [if_pos (by rw [hmmilen, hlen])]
    exact hfold
  · intro i h1 h2
    obtain ⟨hmx, hmn⟩ := hmmiin i h1 h2
    obtain ⟨hf, hg⟩ := hinr i h1 h2
    exact ⟨hf t_max_value hmx, hg t_min_value hmn⟩

/-- Spec of the epsilon-inflation fold shared by `insert` and
`update_node`: each active pair `(mn, mx)` becomes `(mn - eps, mx + eps)`,
nothing else changes. -/
theorem inflate_fold_spec (s e : Nat) (eps : ℚ) (bv : List ℚ)
    (hb : ∀ i, s ≤ i → i < e → 2*i+1 < bv.length) :
    ∃ bv', (iter_range s e).foldlM
      (fun bv i => do
        let mn ← bv[2 * i]?
        let bv ← lset bv (2 * i) (mn - eps)
        let mx ← bv[2 * i + 1]?
        lset bv (2 * i + 1) (mx + eps))
      bv = some bv'
      ∧ bv'.length = bv.length
      ∧ (∀ i, s ≤ i → i < e →
          (∀ v, bv[2*i]? = some v → bv'[2*i]? = some (v - eps))
          ∧ (∀ w, bv[2*i+1]? = some w → bv'[2*i+1]? = some (w + eps)))
      ∧ (∀ j, (∀ i, s ≤ i → i < e → j ≠ 2*i ∧ j ≠ 2*i+1) →
          bv'[j]? = bv[j]?) := by
  have key := @pair_range_fold
    (fun bv i => do
      let mn ← bv[2 * i]?
      let bv ← lset bv (2 * i) (mn - eps)
      let mx ← bv[2 * i + 1]?
      lset bv (2 * i + 1) (mx + eps))
    (fun _ v => v - eps) (fun _ w => w + eps)
    (fun bv i v w hv hw => by
      have h0 : 2*i < bv.length := (List.getElem?_eq_some.mp hv).1
      have h1 : 2*i+1 < bv.length := (List.getElem?_eq_some.mp hw).1
      have hww : bv[2*i+1] = w := by
        have := List.getElem?_eq_getElem h1
        rw [hw] at this
        exact (Option.some.inj this).symm
      refine ⟨(bv.set (2*i) (v - eps)).set (2*i+1) (w + eps), ?_, ?_, ?_, ?_, ?_⟩
      · simp [hv, hww, lset, h0, h1, List.length_set, List.getElem?_set_ne,
          Nat.ne_of_lt (by omega : 2*i < 2*i+1)]
      · simp [List.length_set]
      · rw [List.getElem?_set_ne (by omega),
          List.getElem?_set_self (by simpa using h0)]
      · rw [List.getElem?_set_self (by simp [List.length_set]; omega)]
      · intro j hj0 hj1
        rw [List.getElem?_set_ne (by omega), List.getElem?_set_ne (by omega)])
    (e - s) s bv (fun i h1 h2 => hb i h1 (by omega))
  obtain ⟨bv', hfold, hlen, hinr, houtr⟩ := key
  refine ⟨bv', ?_, hlen, ?_, ?_⟩
  · unfold iter_range
    exact hfold
  · intro i h1 h2
    exact hinr i h1 (by omega)
  · intro j hj
    exact houtr j (fun i hi1 hi2 => hj i hi1 (by omega))

/-- A left min-fold never exceeds its initial value. -/
theorem foldl_min_le_init (f : V3 → ℚ) :
    ∀ (l : List V3) (init : ℚ),
      l.foldl (fun v p => min v (f p)) init ≤ init := by
  intro l
  induction l with
  | nil => intro init; exact le_refl init
  | cons p rest ih =>
    intro init
    rw [List.foldl_cons]
    exact le_trans (ih (min init (f p))) (min_le_left _ _)

/-- A left min-fold is at most every member's value. -/
theorem foldl_min_le_mem (f : V3 → ℚ) :
    ∀ (l : List V3) (init : ℚ) (p : V3), p ∈ l →
      l.foldl (fun v p => min v (f p)) init ≤ f p := by
  intro l
  induction l with
  | nil => intro init p hp; cases hp
  | cons q rest ih =>
    intro init p hp
    rw [List.foldl_cons]
    rcases List.mem_cons.mp hp with rfl | hp
    · exact le_trans (foldl_min_le_init f rest _) (min_le_right _ _)
    · exact ih _ p hp

/-- A left min-fold is its initial value or attained by a member. -/
theorem foldl_min_attained (f : V3 → ℚ) :
    ∀ (l : List V3) (init : ℚ),
      l.foldl (fun v p => min v (f p)) init = init ∨
        ∃ p ∈ l, l.foldl (fun v p => min v (f p)) init = f p := by
  intro l
  induction l with
  | nil => intro init; exact Or.inl rfl
  | cons q rest ih =>
    intro init
    rw [List.foldl_cons]
    rcases ih (min init (f q)) with h | ⟨p, hp, h⟩
    · rcases min_cases init (f q) with ⟨hm, _⟩ | ⟨hm, _⟩
      · exact Or.inl (h.trans hm)
      · exact Or.inr ⟨q, List.mem_cons_self q rest, h.trans hm⟩
    · exact Or.inr ⟨p, List.mem_cons_of_mem q hp, h⟩

/-- A left max-fold is at least its initial value. -/
theorem foldl_max_ge_init (f : V3 → ℚ) :
    ∀ (l : List V3) (init : ℚ),
      init ≤ l.foldl (fun w p => max w (f p)) init := by
  intro l
  induction l with
  | nil => intro init; exact le_refl init
  | cons p rest ih =>
    intro init
    rw [List.foldl_cons]
    exact le_trans (le_max_left _ _) (ih (max init (f p)))

/-- A left max-fold is at least every member's value. -/
theorem foldl_max_ge_mem (f : V3 → ℚ) :
    ∀ (l : List V3) (init : ℚ) (p : V3), p ∈ l →
      f p ≤ l.foldl (fun w p => max w (f p)) init := by
  intro l
  induction l with
  | nil => intro init p hp; cases hp
  | cons q rest ih =>
    intro init p hp
    rw [List.foldl_cons]
    rcases List.mem_cons.mp hp with rfl | hp
    · exact le_trans (le_max_right _ _) (foldl_max_ge_init f rest _)
    · exact ih _ p hp

/-- A left max-fold is its initial value or attained by a member. -/
theorem foldl_max_attained (f : V3 → ℚ) :
    ∀ (l : List V3) (init : ℚ),
      l.foldl (fun w p => max w (f p)) init = init ∨
        ∃ p ∈ l, l.foldl (fun w p => max w (f p)) init = f p := by
  intro l
  induction l with
  | nil => intro init; exact Or.inl rfl
  | cons q rest ih =>
    intro init
    rw [List.foldl_cons]
    rcases ih (max init (f q)) with h | ⟨p, hp, h⟩
    · rcases max_cases init (f q) with ⟨hm, _⟩ | ⟨hm, _⟩
      · exact Or.inl (h.trans hm)
      · exact Or.inr ⟨q, List.mem_cons_self q rest, h.trans hm⟩
    · exact Or.inr ⟨p, List.mem_cons_of_mem q hp, h⟩

/-- The tight minimum of the points' projections on kdop axis `i`, as the
source computes it: a min-fold from the `t_max_value` sentinel. -/
def proj_min (cos : List V3) (i : Nat) : ℚ :=
  cos.foldl (fun v p => min v (p.dot (bvhtree_kdop_axes i))) t_max_value

/-- The tight maximum of the points' projections on kdop axis `i`, as the
source computes it: a max-fold from the `t_min_value` sentinel. -/
def proj_max (cos : List V3) (i : Nat) : ℚ :=
  cos.foldl (fun w p => max w (p.dot (bvhtree_kdop_axes i))) t_min_value

/-- C7: a leaf stored by `insert` carries, on every active kdop axis, the
interval `[proj_min - epsilon, proj_max + epsilon]` where `proj_min` /
`proj_max` are the tight min/max of the inserted points' projections;
those bounds are attained by some point and bound every point (so every
projection lies within the stored interval for `epsilon ≥ 0`). -/
theorem c7_leaf_hull {E : Type} (t : BVHTree E) (index : E) (cos : List V3)
    (t' : BVHTree E) (node : BVHNode E)
    (hins : t.insert index cos = some t')
    (hnode : t.node_array[t.totleaf]? = some node)
    (hblen : node.bv.length = t.stop_axis * 2) :
    ∃ node', t'.node_array[t.totleaf]? = some node'
      ∧ node'.elem_index = some index
      ∧ ∀ i, t.start_axis ≤ i → i < t.stop_axis →
          node'.bv[2*i]? = some (proj_min cos i - t.epsilon)
          ∧ node'.bv[2*i+1]? = some (proj_max cos i + t.epsilon)
          ∧ (∀ p ∈ cos, proj_min cos i ≤ p.dot (bvhtree_kdop_axes i)
              ∧ p.dot (bvhtree_kdop_axes i) ≤ proj_max cos i)
          ∧ (cos ≠ [] →
              (∀ p ∈ cos, p.dot (bvhtree_kdop_axes i) < t_max_value
                ∧ t_min_value < p.dot (bvhtree_kdop_axes i)) →
              (∃ p ∈ cos, p.dot (bvhtree_kdop_axes i) = proj_min cos i)
              ∧ (∃ p ∈ cos, p.dot (bvhtree_kdop_axes i) = proj_max cos i)) := by
  have htb : t.totbranch = 0 := by
    by_contra h
    unfold BVHTree.insert at hins
    rw [if_neg h] at hins
    exact Option.noConfusion hins
  obtain ⟨bvH, hhull, hhlen, hhget⟩ :=
    create_kdop_hull_spec t.start_axis t.stop_axis cos node.bv hblen
  obtain ⟨bvF, hinf, hflen, hfin, hfout⟩ :=
    inflate_fold_spec t.start_axis t.stop_axis t.epsilon bvH
      (fun i h1 h2 => by rw [hhlen]; omega)
  unfold BVHTree.insert at hins
  rw [if_pos htb] at hins
  simp only [hnode, hhull, hinf, Option.bind_eq_bind', Option.some_bind,
    Option.bind_eq_some] at hins
  obtain ⟨nodes0, hnodes0, bvF', hfold', arr, hset, hfinal⟩ := hins
  simp only [Option.bind_eq_bind'] at hinf
  rw [hinf] at hfold'
  injection hfold' with hbv
  subst hbv
  injection hfinal with ht'
  subst ht'
  have harr : t.totleaf < t.node_array.length := (List.getElem?_eq_some.mp hnode).1
  simp only [set_node, lset, if_pos harr] at hset
  injection hset with harr'
  subst harr'
  refine ⟨{ node with bv := bvF, elem_index := some index }, ?_, rfl, ?_⟩
  · show (t.node_array.set t.totleaf _)[t.totleaf]? = some _
    rw [List.getElem?_set_self (by simpa using harr)]
  · intro i h1 h2
    obtain ⟨hmin, hmax⟩ := hhget i h1 h2
    obtain ⟨hf1, hf2⟩ := hfin i h1 h2
    refine ⟨hf1 _ hmin, hf2 _ hmax, ?_, ?_⟩
    · intro p hp
      exact ⟨foldl_min_le_mem _ cos _ p hp, foldl_max_ge_mem _ cos _ p hp⟩
    · intro hne hsent
      constructor
      · rcases foldl_min_attained (fun p => p.dot (bvhtree_kdop_axes i)) cos
          t_max_value with h | ⟨p, hp, h⟩
        · obtain ⟨p0, hp0⟩ := List.exists_mem_of_ne_nil cos hne
          have hle := foldl_min_le_mem
            (fun p => p.dot (bvhtree_kdop_axes i)) cos t_max_value p0 hp0
          rw [h] at hle
          exact absurd (lt_of_le_of_lt hle (hsent p0 hp0).1) (lt_irrefl _)
        · exact ⟨p, hp, h.symm⟩
      · rcases foldl_max_attained (fun p => p.dot (bvhtree_kdop_axes i)) cos
          t_min_value with h | ⟨p, hp, h⟩
        · obtain ⟨p0, hp0⟩ := List.exists_mem_of_ne_nil cos hne
          have hle := foldl_max_ge_mem
            (fun p => p.dot (bvhtree_kdop_axes i)) cos t_min_value p0 hp0
          rw [h] at hle
          exact absurd (lt_of_lt_of_le (hsent p0 hp0).2 hle) (lt_irrefl _)
        · exact ⟨p, hp, h.symm⟩

/-- The C7 witness tree: `new(2, 0.001, 3, 6)`. -/
def c7_t : Option (BVHTree Nat) := BVHTree.new Nat 2 (1/1000) 3 6

/-- C7 witness: a concrete insert into `new(2, 0.001, 3, 6)`. -/
theorem c7_leaf_hull_witness :
    ∃ (t t' : BVHTree Nat) (node : BVHNode Nat),
      c7_t = some t
      ∧ t.insert 5 [⟨-1,0,0⟩, ⟨1,0,0⟩] = some t'
      ∧ t.node_array[t.totleaf]? = some node
      ∧ node.bv.length = t.stop_axis * 2
      ∧ ∃ node', t'.node_array[t.totleaf]? = some node'
          ∧ node'.elem_index = some 5 := by
  cases ht : c7_t with
  | none => exact absurd ht (by decide)
  | some t =>
    have h2 : (c7_t.bind fun t =>
        t.insert 5 [⟨-1,0,0⟩, ⟨1,0,0⟩]).isSome = true := by decide
    rw [ht, Option.some_bind] at h2
    cases hins : t.insert 5 [⟨-1,0,0⟩, ⟨1,0,0⟩] with
    | none => rw [hins] at h2; exact absurd h2 (by decide)
    | some t' =>
      have h3 : (c7_t.bind fun t => t.node_array[t.totleaf]?).isSome = true := by
        decide
      rw [ht, Option.some_bind] at h3
      cases hnode : t.node_array[t.totleaf]? with
      | none => rw [hnode] at h3; exact absurd h3 (by decide)
      | some node =>
        have h4 : (c7_t.bind fun t => (t.node_array[t.totleaf]?).map
            fun nd => decide (nd.bv.length = t.stop_axis * 2)) = some true := by
          decide
        rw [ht, Option.some_bind, hnode, Option.map_some'] at h4
        have hblen : node.bv.length = t.stop_axis * 2 :=
          of_decide_eq_true (Option.some.inj h4)
        obtain ⟨node', hn', hel, _⟩ :=
          c7_leaf_hull t 5 [⟨-1,0,0⟩, ⟨1,0,0⟩] t' node hins hnode hblen
        exact ⟨t, t', node, rfl, hins, hnode, hblen, node', hn', hel⟩

/-- `create_kdop_hull` with `moving = true` keeps the incoming `bv` (no
re-initialisation) and succeeds on a `bv` of the asserted length. -/
theorem create_kdop_hull_moving_spec (s e : Nat) (cos : List V3) (bv : List ℚ)
    (hlen : bv.length = e * 2) :
    ∃ bv', create_kdop_hull s e cos true bv = some bv'
      ∧ bv'.length = e * 2 := by
  obtain ⟨bv', hfold, hlen', _, _⟩ := hull_points_spec s e cos bv
    (fun i h1 h2 => by omega)
  refine ⟨bv', ?_, by rw [hlen', hlen]⟩
  unfold create_kdop_hull
  simp only [reduceIte, Option.pure_def, Option.some_bind, Option.bind_eq_bind']
  rw [if_pos hlen]
  exact hfold

/-- C6 (amended): `update_node` returns `Err(IndexOutOfRange)` exactly for
`node_index > totleaf` (so `node_index = totleaf`, one past the last leaf,
is accepted — the claim's `>= totleaf` is wrong); it returns
`Err(DifferentNumPoints)` when `co_moving_many` is non-empty with a length
different from `co_many`'s; and for `node_index ≤ totleaf` with compatible
point slices and a well-formed slot it returns `Ok`. -/
theorem c6_update_node_classified {E : Type} (t : BVHTree E) (idx : Nat)
    (cm cmm : List V3) (node : BVHNode E) :
    (idx > t.totleaf →
      t.update_node idx cm cmm = some (.error .IndexOutOfRange, t))
    ∧ (idx ≤ t.totleaf → cmm ≠ [] → cm.length ≠ cmm.length →
        t.update_node idx cm cmm = some (.error .DifferentNumPoints, t))
    ∧ (idx ≤ t.totleaf → (cmm = [] ∨ cm.length = cmm.length) →
        t.node_array[idx]? = some node → node.bv.length = t.stop_axis * 2 →
        ∃ t', t.update_node idx cm cmm = some (.ok (), t')) := by
  refine ⟨?_, ?_, ?_⟩
  · intro h
    unfold BVHTree.update_node
    rw [if_pos h]
  · intro h1 h2 h3
    unfold BVHTree.update_node
    rw [if_neg (by omega), if_pos ⟨h2, h3⟩]
  · intro h1 hcompat hnode hblen
    obtain ⟨bvH, hhull, hhlen, _⟩ :=
      create_kdop_hull_spec t.start_axis t.stop_axis cm node.bv hblen
    have harr : idx < t.node_array.length := (List.getElem?_eq_some.mp hnode).1
    have hno2 : ¬(cmm ≠ [] ∧ cm.length ≠ cmm.length) := by
      rcases hcompat with h | h
      · exact fun hx => hx.1 h
      · exact fun hx => hx.2 h
    by_cases hc : cmm = []
    · obtain ⟨bvF, hinf, hflen, _, _⟩ :=
        inflate_fold_spec t.start_axis t.stop_axis t.epsilon bvH
          (fun i hi1 hi2 => by rw [hhlen]; omega)
      simp only [Option.bind_eq_bind'] at hinf
      refine ⟨{ t with
        node_array := t.node_array.set idx { node with bv := bvF } }, ?_⟩
      unfold BVHTree.update_node
      rw [if_neg (by omega), if_neg hno2]
      simp only [hnode, hhull, Option.bind_eq_bind', Option.some_bind]
      rw [if_neg (not_not_intro hc)]
      simp only [Option.pure_def, Option.some_bind]
      rw [hinf]
      simp only [Option.some_bind, set_node, lset, if_pos harr]
    · obtain ⟨bvM, hmv, hmlen⟩ :=
        create_kdop_hull_moving_spec t.start_axis t.stop_axis cmm bvH hhlen
      obtain ⟨bvF, hinf, hflen, _, _⟩ :=
        inflate_fold_spec t.start_axis t.stop_axis t.epsilon bvM
          (fun i hi1 hi2 => by rw [hmlen]; omega)
      simp only [Option.bind_eq_bind'] at hinf
      refine ⟨{ t with
        node_array := t.node_array.set idx { node with bv := bvF } }, ?_⟩
      unfold BVHTree.update_node
      rw [if_neg (by omega), if_neg hno2]
      simp only [hnode, hhull, Option.bind_eq_bind', Option.some_bind]
      rw [if_pos hc, hmv]
      simp only [Option.some_bind]
      rw [hinf]
      simp only [Option.some_bind, set_node, lset, if_pos harr]

/-- The C6 witness tree: `new(2, 0.001, 3, 6)` with one leaf inserted. -/
def c6_t : Option (BVHTree Nat) :=
  (BVHTree.new Nat 2 (1/1000) 3 6).bind fun t =>
    t.insert 0 [⟨-1,0,0⟩, ⟨1,0,0⟩]

/-- C6 witness: the three behaviours on a concrete one-leaf tree. -/
theorem c6_update_node_classified_witness :
    ∃ t : BVHTree Nat, c6_t = some t
      ∧ t.update_node (t.totleaf + 1) [] []
          = some (.error .IndexOutOfRange, t)
      ∧ t.update_node 0 [⟨0,0,0⟩] [⟨0,0,0⟩, ⟨1,1,1⟩]
          = some (.error .DifferentNumPoints, t)
      ∧ ∃ t', t.update_node 0 [⟨2,0,0⟩, ⟨3,0,0⟩] [] = some (.ok (), t') := by
  cases ht : c6_t with
  | none => exact absurd ht (by decide)
  | some t =>
    have h3 : (c6_t.bind fun t => t.node_array[0]?).isSome = true := by decide
    rw [ht, Option.some_bind] at h3
    cases hnode : t.node_array[0]? with
    | none => rw [hnode] at h3; exact absurd h3 (by decide)
    | some node =>
      have h4 : (c6_t.bind fun t => (t.node_array[0]?).map
          fun nd => decide (nd.bv.length = t.stop_axis * 2)) = some true := by
        decide
      rw [ht, Option.some_bind, hnode, Option.map_some'] at h4
      have hblen : node.bv.length = t.stop_axis * 2 :=
        of_decide_eq_true (Option.some.inj h4)
      obtain ⟨hp1, hp2, hp3⟩ :=
        c6_update_node_classified t (t.totleaf + 1) [] [] node
      obtain ⟨_, hq2, _⟩ :=
        c6_update_node_classified t 0 [⟨0,0,0⟩] [⟨0,0,0⟩, ⟨1,1,1⟩] node
      obtain ⟨_, _, hr3⟩ :=
        c6_update_node_classified t 0 [⟨2,0,0⟩, ⟨3,0,0⟩] [] node
      have htl : 0 ≤ t.totleaf := Nat.zero_le _
      exact ⟨t, rfl, hp1 (by omega), hq2 htl (by simp) (by simp),
        hr3 htl (Or.inl rfl) hnode hblen⟩

/-- A fold over `Option` whose every successful step returns its input
returns the initial accumulator. -/
theorem foldlM_const {α β : Type} (step : α → β → Option α)
    (hstep : ∀ r x r', step r x = some r' → r' = r) :
    ∀ (l : List β) (r r' : α), l.foldlM step r = some r' → r' = r := by
  intro l
  induction l with
  | nil =>
    intro r r' h
    simp only [List.foldlM_nil] at h
    exact (Option.some.inj h).symm
  | cons x rest ih =>
    intro r r' h
    rw [List.foldlM_cons] at h
    simp only [Option.bind_eq_bind', Option.bind_eq_some] at h
    obtain ⟨r1, h1, h2⟩ := h
    rw [hstep r x r1 h1] at h2
    exact ih r r' h2

/-- A fold over `Option` from a fixed accumulator whose every successful
step from that accumulator returns it again returns it. -/
theorem foldlM_fix {α β : Type} (step : α → β → Option α) (r0 : α)
    (hstep : ∀ x r', step r0 x = some r' → r' = r0) :
    ∀ (l : List β) (r' : α), l.foldlM step r0 = some r' → r' = r0 := by
  intro l
  induction l with
  | nil =>
    intro r' h
    simp only [List.foldlM_nil] at h
    exact (Option.some.inj h).symm
  | cons x rest ih =>
    intro r' h
    rw [List.foldlM_cons] at h
    simp only [Option.bind_eq_bind', Option.bind_eq_some] at h
    obtain ⟨r1, h1, h2⟩ := h
    rw [hstep x r1 h1] at h2
    exact ih r' h2

/-- A fold over `Option` whose every successful step preserves
"unchanged or `P`" preserves it end to end. -/
theorem foldlM_pres {α β : Type} (P : α → Prop) (step : α → β → Option α)
    (hstep : ∀ r x r', step r x = some r' → (r' = r ∨ P r')) :
    ∀ (l : List β) (r r' : α), l.foldlM step r = some r' → (r' = r ∨ P r') := by
  intro l
  induction l with
  | nil =>
    intro r r' h
    simp only [List.foldlM_nil] at h
    exact Or.inl (Option.some.inj h).symm
  | cons x rest ih =>
    intro r r' h
    rw [List.foldlM_cons] at h
    simp only [Option.bind_eq_bind', Option.bind_eq_some] at h
    obtain ⟨r1, h1, h2⟩ := h
    rcases ih r1 r' h2 with rfl | hp
    · exact hstep r x r' h1
    · exact Or.inr hp

/-- `ray_cast_traverse` with a callback that always declines leaves its
accumulator unchanged. -/
theorem rct_callback_none {E X : Type} (t : BVHTree E) (data : RayCastData)
    (cb : E → Option (RayHitData E X)) (hcb : ∀ e, cb e = none) :
    ∀ (fuel : Nat) (ni : NodeIndex) (r r' : RayHitData E X),
      t.ray_cast_traverse data (some cb) fuel ni r = some r' → r' = r := by
  intro fuel
  induction fuel with
  | zero => intro ni r r' h; exact Option.noConfusion h
  | succ fuel ih =>
    intro ni r r' h
    unfold BVHTree.ray_cast_traverse at h
    simp only [Option.bind_eq_bind', Option.bind_eq_some] at h
    obtain ⟨node, hn, hit, hh, hrest⟩ := h
    cases hit with
    | none => exact (Option.some.inj hrest).symm
    | some dist =>
      dsimp only at hrest
      by_cases hge : dist ≥ r.dist
      · rw [if_pos hge] at hrest
        exact (Option.some.inj hrest).symm
      · rw [if_neg hge] at hrest
        by_cases hleaf : node.totnode = 0
        · rw [if_pos hleaf] at hrest
          simp only [Option.bind_eq_bind', Option.bind_eq_some] at hrest
          obtain ⟨e, he, hrest⟩ := hrest
          rw [hcb e] at hrest
          exact (Option.some.inj hrest).symm
        · rw [if_neg hleaf] at hrest
          simp only [Option.bind_eq_bind', Option.bind_eq_some] at hrest
          obtain ⟨rda, hrda, hrest⟩ := hrest
          by_cases hdir : rda > 0
          · rw [if_pos hdir] at hrest
            refine foldlM_const _ ?_ _ r r' hrest
            intro r0 i r1 h1
            simp only [Option.bind_eq_bind', Option.bind_eq_some] at h1
            obtain ⟨c, hcx, hrec⟩ := h1
            exact ih c r0 r1 hrec
          · rw [if_neg hdir] at hrest
            refine foldlM_const _ ?_ _ r r' hrest
            intro r0 i r1 h1
            simp only [Option.bind_eq_bind', Option.bind_eq_some] at h1
            obtain ⟨c, hcx, hrec⟩ := h1
            exact ih c r0 r1 hrec

/-- A successful arena lookup returns a member of the arena. -/
theorem get_node_mem {E : Type} {arr : List (BVHNode E)} {ni : NodeIndex}
    {node : BVHNode E} (h : get_node arr ni = some node) : node ∈ arr := by
  unfold get_node at h
  simp only [Option.bind_eq_bind', Option.bind_eq_some] at h
  obtain ⟨i, hi, h⟩ := h
  obtain ⟨hlt, heq⟩ := List.getElem?_eq_some.mp h
  exact heq ▸ List.getElem_mem hlt

/-- `ray_cast_traverse` without callback leaves its accumulator unchanged
when every leaf misses at the accumulator's distance. -/
theorem rct_no_leaf_hit {E X : Type} (t : BVHTree E) (data : RayCastData)
    (r0 : RayHitData E X)
    (hleaf : ∀ nd, nd ∈ t.node_array → nd.totnode = 0 →
      ray_hit E nd data r0.dist = some none) :
    ∀ (fuel : Nat) (ni : NodeIndex) (r' : RayHitData E X),
      t.ray_cast_traverse data none fuel ni r0 = some r' → r' = r0 := by
  intro fuel
  induction fuel with
  | zero => intro ni r' h; exact Option.noConfusion h
  | succ fuel ih =>
    intro ni r' h
    unfold BVHTree.ray_cast_traverse at h
    simp only [Option.bind_eq_bind', Option.bind_eq_some] at h
    obtain ⟨node, hn, hit, hh, hrest⟩ := h
    cases hit with
    | none => exact (Option.some.inj hrest).symm
    | some dist =>
      dsimp only at hrest
      by_cases hge : dist ≥ r0.dist
      · rw [if_pos hge] at hrest
        exact (Option.some.inj hrest).symm
      · rw [if_neg hge] at hrest
        by_cases hlf : node.totnode = 0
        · have hx := hleaf node (get_node_mem hn) hlf
          rw [hh] at hx
          exact Option.noConfusion (Option.some.inj hx)
        · rw [if_neg hlf] at hrest
          simp only [Option.bind_eq_bind', Option.bind_eq_some] at hrest
          obtain ⟨rda, hrda, hrest⟩ := hrest
          by_cases hdir : rda > 0
          · rw [if_pos hdir] at hrest
            refine foldlM_fix _ r0 ?_ _ r' hrest
            intro i r1 h1
            simp only [Option.bind_eq_bind', Option.bind_eq_some] at h1
            obtain ⟨c, hcx, hrec⟩ := h1
            exact ih c r1 hrec
          · rw [if_neg hdir] at hrest
            refine foldlM_fix _ r0 ?_ _ r' hrest
            intro i r1 h1
            simp only [Option.bind_eq_bind', Option.bind_eq_some] at h1
            obtain ⟨c, hcx, hrec⟩ := h1
            exact ih c r1 hrec

/-- Any change `ray_cast_traverse` (no callback) makes to its accumulator
records an element taken from a leaf of the node arena. -/
theorem rct_data_origin {E X : Type} (t : BVHTree E) (data : RayCastData) :
    ∀ (fuel : Nat) (ni : NodeIndex) (r r' : RayHitData E X),
      t.ray_cast_traverse data none fuel ni r = some r' →
      r' = r ∨ ∃ nd, nd ∈ t.node_array ∧ nd.totnode = 0 ∧
        ∃ e p, nd.elem_index = some e ∧ r'.data = some ⟨e, p⟩ := by
  intro fuel
  induction fuel with
  | zero => intro ni r r' h; exact Option.noConfusion h
  | succ fuel ih =>
    intro ni r r' h
    unfold BVHTree.ray_cast_traverse at h
    simp only [Option.bind_eq_bind', Option.bind_eq_some] at h
    obtain ⟨node, hn, hit, hh, hrest⟩ := h
    cases hit with
    | none => exact Or.inl (Option.some.inj hrest).symm
    | some dist =>
      dsimp only at hrest
      by_cases hge : dist ≥ r.dist
      · rw [if_pos hge] at hrest
        exact Or.inl (Option.some.inj hrest).symm
      · rw [if_neg hge] at hrest
        by_cases hlf : node.totnode = 0
        · rw [if_pos hlf] at hrest
          simp only [Option.bind_eq_bind', Option.bind_eq_some] at hrest
          obtain ⟨e, he, hrest⟩ := hrest
          refine Or.inr ⟨node, get_node_mem hn, hlf, e,
            data.co + data.dir.scale dist, he, ?_⟩
          rw [← (Option.some.inj hrest)]
        · rw [if_neg hlf] at hrest
          simp only [Option.bind_eq_bind', Option.bind_eq_some] at hrest
          obtain ⟨rda, hrda, hrest⟩ := hrest
          by_cases hdir : rda > 0
          · rw [if_pos hdir] at hrest
            refine foldlM_pres (fun r' => ∃ nd, nd ∈ t.node_array ∧
              nd.totnode = 0 ∧ ∃ e p, nd.elem_index = some e ∧
              r'.data = some ⟨e, p⟩) _ ?_ _ r r' hrest
            intro r0 i r1 h1
            simp only [Option.bind_eq_bind', Option.bind_eq_some] at h1
            obtain ⟨c, hcx, hrec⟩ := h1
            exact ih c r0 r1 hrec
          · rw [if_neg hdir] at hrest
            refine foldlM_pres (fun r' => ∃ nd, nd ∈ t.node_array ∧
              nd.totnode = 0 ∧ ∃ e p, nd.elem_index = some e ∧
              r'.data = some ⟨e, p⟩) _ ?_ _ r r' hrest
            intro r0 i r1 h1
            simp only [Option.bind_eq_bind', Option.bind_eq_some] at h1
            obtain ⟨c, hcx, hrec⟩ := h1
            exact ih c r0 r1 hrec

/-- C9: `ray_cast` returns `None` whenever every callback invocation
returns `None`; `ray_cast_no_callback` returns `None` whenever every leaf
fails the k-DOP slab test at the initial best distance `t_max_value`; and
a `Some` result of `ray_cast_no_callback` always carries hit data whose
element was read from a leaf node of the arena. -/
theorem c9_ray_cast_classified {E X : Type} (t : BVHTree E) (co dir : V3)
    (cb : E → Option (RayHitData E X)) (fuel : Nat) :
    (∀ res, t.ray_cast co dir cb fuel = some res →
      (∀ e, cb e = none) → res = none)
    ∧ (∀ res, t.ray_cast_no_callback co dir fuel = some res →
        (∀ nd, nd ∈ t.node_array → nd.totnode = 0 →
          ray_hit E nd (RayCastData.new co dir) t_max_value = some none) →
        res = none)
    ∧ (∀ r', t.ray_cast_no_callback co dir fuel = some (some r') →
        ∃ nd, nd ∈ t.node_array ∧ nd.totnode = 0 ∧
          ∃ e p, nd.elem_index = some e ∧ r'.data = some ⟨e, p⟩) := by
  refine ⟨?_, ?_, ?_⟩
  · intro res h hcb
    unfold BVHTree.ray_cast BVHTree.ray_cast_optional_callback at h
    by_cases h0 : t.totleaf = 0
    · rw [if_pos h0] at h
      exact (Option.some.inj h).symm
    · rw [if_neg h0] at h
      simp only [Option.bind_eq_bind', Option.bind_eq_some] at h
      obtain ⟨root, hroot, r, hr, hfin⟩ := h
      have hrr := rct_callback_none t _ cb hcb fuel root _ r hr
      subst hrr
      rw [if_neg (by simp [RayHitData.new])] at hfin
      exact (Option.some.inj hfin).symm
  · intro res h hleaf
    unfold BVHTree.ray_cast_no_callback BVHTree.ray_cast_optional_callback at h
    by_cases h0 : t.totleaf = 0
    · rw [if_pos h0] at h
      exact (Option.some.inj h).symm
    · rw [if_neg h0] at h
      simp only [Option.bind_eq_bind', Option.bind_eq_some] at h
      obtain ⟨root, hroot, r, hr, hfin⟩ := h
      have hrr := rct_no_leaf_hit t (RayCastData.new co dir)
        (RayHitData.new E Unit t_max_value)
        (fun nd hm hz => hleaf nd hm hz) fuel root r hr
      subst hrr
      rw [if_neg (by simp [RayHitData.new])] at hfin
      exact (Option.some.inj hfin).symm
  · intro r' h
    unfold BVHTree.ray_cast_no_callback BVHTree.ray_cast_optional_callback at h
    by_cases h0 : t.totleaf = 0
    · rw [if_pos h0] at h
      exact Option.noConfusion (Option.some.inj h)
    · rw [if_neg h0] at h
      simp only [Option.bind_eq_bind', Option.bind_eq_some] at h
      obtain ⟨root, hroot, r, hr, hfin⟩ := h
      by_cases hd : r.data.isSome
      · rw [if_pos hd] at hfin
        have hrr : r = r' := Option.some.inj (Option.some.inj hfin)
        rcases rct_data_origin t (RayCastData.new co dir) fuel root _ r hr
          with heq | hp
        · rw [heq] at hd
          exact absurd hd (by simp [RayHitData.new])
        · exact hrr ▸ hp
      · rw [if_neg hd] at hfin
        exact Option.noConfusion (Option.some.inj hfin)

/-- The C9 witness tree: the two-leaf balanced tree. -/
def c9_t : Option (BVHTree Nat) :=
  (BVHTree.new Nat 2 (1/1000) 3 6).bind fun t =>
  (t.insert 0 [⟨-1,0,0⟩, ⟨1,0,0⟩]).bind fun t =>
  (t.insert 1 [⟨0,-1,0⟩, ⟨0,1,0⟩]).bind fun t =>
  t.balance

/-- C9 witness: an all-`None` callback on the two-leaf balanced tree. -/
theorem c9_ray_cast_classified_witness :
    ∃ (t : BVHTree Nat) (res : Option (RayHitData Nat Unit)),
      c9_t = some t
      ∧ t.ray_cast ⟨5,5,5⟩ ⟨1,0,0⟩ (fun _ => none) 50 = some res
      ∧ res = none := by
  cases ht : c9_t with
  | none => exact absurd ht (by decide)
  | some t =>
    have h2 : (c9_t.bind fun t => t.ray_cast ⟨5,5,5⟩ ⟨1,0,0⟩
        (fun _ => (none : Option (RayHitData Nat Unit))) 50).isSome = true := by
      decide
    rw [ht, Option.some_bind] at h2
    cases hrc : t.ray_cast ⟨5,5,5⟩ ⟨1,0,0⟩
        (fun _ => (none : Option (RayHitData Nat Unit))) 50 with
    | none => rw [hrc] at h2; exact absurd h2 (by decide)
    | some res =>
      exact ⟨t, res, rfl, hrc,
        (c9_ray_cast_classified t ⟨5,5,5⟩ ⟨1,0,0⟩ (fun _ => none) 50).1
          res hrc (fun e => rfl)⟩
